import Mathlib

/-!
Verification of the color-science core of `material-color-utilities-py`.

The repository contains two parallel module trees implementing the same
color math:

* `material_color_utilities`        (snake_case API), embedded below in
  namespace `Mcu`;
* `material_color_utilities_python` (camelCase API), embedded below in
  namespace `Mcup`.

Conventions of the shallow embedding:

* Python `int` is modelled as `ℤ`; Python `float` as `ℝ`.  Functions that
  only use field and order operations (`math_utils`) are stated over an
  arbitrary `LinearOrderedField` so that they can also be evaluated
  decidably at `ℚ`.
* On Python ints, `x & 255` equals `x mod 256` (also for negative `x`,
  because Python ints behave as infinite twos-complement values), `x << k`
  equals `x * 2 ^ k`, `x >> k` is floor division by `2 ^ k`, and a
  bitwise or of byte fields that occupy disjoint bit ranges equals their
  sum.  The ARGB packing/unpacking functions are embedded through these
  arithmetic equivalents (`%` (Euclidean mod), `Int.fdiv`, `*`, `+`).
* Python `%` on floats follows the sign of the divisor, so `x % 360`
  is the floor-mod `x - 360 * ⌊x / 360⌋`.
* Python 3 `round` rounds halves to even (`pyRound` below).
* `math.pow` / `numpy.power` on nonnegative floats is `Real.rpow`.
-/

set_option maxHeartbeats 1600000

/-- Python 3 `round`: round to the nearest integer, halves to even. -/
noncomputable def pyRound (x : ℝ) : ℤ :=
  if Int.fract x = 1 / 2 then (if Even ⌊x⌋ then ⌊x⌋ else ⌊x⌋ + 1) else round x

/-- A 3 × 3 matrix of entries of type `α`, row major. -/
structure Mat3 (α : Type) where
  m00 : α
  m01 : α
  m02 : α
  m10 : α
  m11 : α
  m12 : α
  m20 : α
  m21 : α
  m22 : α

/-- Transpose of a 3 × 3 matrix. -/
def Mat3.transpose {α : Type} (m : Mat3 α) : Mat3 α :=
  ⟨m.m00, m.m10, m.m20, m.m01, m.m11, m.m21, m.m02, m.m12, m.m22⟩

namespace Mcu

/-- Embedding of `material_color_utilities.utils.math_utils.signum`
(also the semantics of `numpy.sign` used in `blend.py`). -/
def signum {α : Type} [LinearOrderedField α] (num : α) : α :=
  if num < 0 then -1 else if num = 0 then 0 else 1

/-- Embedding of `material_color_utilities.utils.math_utils.lerp`. -/
def lerp {α : Type} [LinearOrderedField α] (start stop amount : α) : α :=
  (1 - amount) * start + amount * stop

/-- Embedding of `material_color_utilities.utils.math_utils.clamp_int`
(the function only compares, so it is stated over any linear order). -/
def clamp_int {α : Type} [LinearOrder α] (min max input : α) : α :=
  if input < min then min else if input > max then max else input

/-- Embedding of `material_color_utilities.utils.math_utils.clamp_double`. -/
def clamp_double {α : Type} [LinearOrder α] (min max input : α) : α :=
  if input < min then min else if input > max then max else input

/-- Embedding of `material_color_utilities.utils.math_utils.sanitize_degrees_int`.
Python `%` on ints with positive divisor is `%` (Euclidean mod). -/
def sanitize_degrees_int (degrees : ℤ) : ℤ :=
  let d := degrees % 360
  if d < 0 then d + 360 else d

/-- Embedding of `material_color_utilities.utils.math_utils.sanitize_degrees_double`.
Python `%` on floats follows the sign of the divisor: `x % 360 = x - 360 * ⌊x / 360⌋`. -/
def sanitize_degrees_double {α : Type} [LinearOrderedField α] [FloorRing α]
    (degrees : α) : α :=
  let d := degrees - 360 * ⌊degrees / 360⌋
  if d < 0 then d + 360 else d

/-- Embedding of `material_color_utilities.utils.math_utils.difference_degrees`. -/
def difference_degrees {α : Type} [LinearOrderedField α] (a b : α) : α :=
  180 - abs (abs (a - b) - 180)

/-- Embedding of `material_color_utilities.utils.math_utils.matrix_multiply`,
which is `numpy.dot(row, matrix)`: a 1-D `row` contracted with the FIRST
index of `matrix`, i.e. the row vector times the matrix. -/
def matrix_multiply {α : Type} [LinearOrderedField α]
    (row : α × α × α) (matrix : Mat3 α) : α × α × α :=
  (row.1 * matrix.m00 + row.2.1 * matrix.m10 + row.2.2 * matrix.m20,
   row.1 * matrix.m01 + row.2.1 * matrix.m11 + row.2.2 * matrix.m21,
   row.1 * matrix.m02 + row.2.1 * matrix.m12 + row.2.2 * matrix.m22)

end Mcu

namespace Mcup

/-- Embedding of `material_color_utilities_python.utils.math_utils.clampInt`. -/
def clampInt {α : Type} [LinearOrder α] (min max input : α) : α :=
  if input < min then min else if input > max then max else input

/-- Embedding of `material_color_utilities_python.utils.math_utils.clampDouble`. -/
def clampDouble {α : Type} [LinearOrder α] (min max input : α) : α :=
  if input < min then min else if input > max then max else input

/-- Embedding of `material_color_utilities_python.utils.math_utils.differenceDegrees`. -/
def differenceDegrees {α : Type} [LinearOrderedField α] (a b : α) : α :=
  180 - abs (abs (a - b) - 180)

/-- Embedding of `material_color_utilities_python.utils.math_utils.matrixMultiply`:
`a = row[0]*m[0][0] + row[1]*m[0][1] + row[2]*m[0][2]`, etc., i.e. the
matrix times the column vector. -/
def matrixMultiply {α : Type} [LinearOrderedField α]
    (row : α × α × α) (matrix : Mat3 α) : α × α × α :=
  (row.1 * matrix.m00 + row.2.1 * matrix.m01 + row.2.2 * matrix.m02,
   row.1 * matrix.m10 + row.2.1 * matrix.m11 + row.2.2 * matrix.m12,
   row.1 * matrix.m20 + row.2.1 * matrix.m21 + row.2.2 * matrix.m22)

end Mcup

namespace Mcu

/-- Embedding of the constant `SRGB_TO_XYZ` of
`material_color_utilities.utils.color_utils`. -/
noncomputable def SRGB_TO_XYZ : Mat3 ℝ :=
  ⟨0.41233895, 0.35762064, 0.18051042,
   0.2126, 0.7152, 0.0722,
   0.01932141, 0.11916382, 0.95034478⟩

/-- Embedding of the constant `XYZ_TO_SRGB` of
`material_color_utilities.utils.color_utils`. -/
noncomputable def XYZ_TO_SRGB : Mat3 ℝ :=
  ⟨3.2413774792388685, -1.5376652402851851, -0.49885366846268053,
   -0.9691452513005321, 1.8758853451067872, 0.04156585616912061,
   0.05562093689691305, -0.20395524564742123, 1.0571799111220335⟩

/-- Embedding of the constant `WHITE_POINT_D65`. -/
noncomputable def WHITE_POINT_D65 : ℝ × ℝ × ℝ := (95.047, 100, 108.883)

/-- Embedding of `color_utils.rshift`: `val >> n if val >= 0 else
(val + 0x100000000) >> n`, where `>>` on Python ints is floor division
by `2 ^ n`. -/
def rshift (val : ℤ) (n : ℕ) : ℤ :=
  if 0 ≤ val then val.fdiv (2 ^ n) else (val + 0x100000000).fdiv (2 ^ n)

/-- Embedding of `color_utils.argb_from_rgb`:
`rshift(255 << 24 | (red & 255) << 16 | (green & 255) << 8 | blue & 255, 0)`.
The four or-ed fields occupy disjoint byte ranges, so the bitwise or is
their sum, and `x & 255` on a Python int is `x mod 256`. -/
def argb_from_rgb (red green blue : ℤ) : ℤ :=
  rshift (255 * 2 ^ 24 + red % 256 * 2 ^ 16 + green % 256 * 2 ^ 8 +
    blue % 256) 0

/-- Embedding of `color_utils.alpha_from_argb`: `argb >> 24 & 255`. -/
def alpha_from_argb (argb : ℤ) : ℤ := (argb.fdiv (2 ^ 24)) % 256

/-- Embedding of `color_utils.red_from_argb`: `argb >> 16 & 255`. -/
def red_from_argb (argb : ℤ) : ℤ := (argb.fdiv (2 ^ 16)) % 256

/-- Embedding of `color_utils.green_from_argb`: `argb >> 8 & 255`. -/
def green_from_argb (argb : ℤ) : ℤ := (argb.fdiv (2 ^ 8)) % 256

/-- Embedding of `color_utils.blue_from_argb`: `argb & 255`. -/
def blue_from_argb (argb : ℤ) : ℤ := argb % 256

/-- Embedding of `color_utils.linearized` (sRGB gamma decode,
output on the 0..100 scale). -/
noncomputable def linearized (rgbComponent : ℝ) : ℝ :=
  let normalized := rgbComponent / 255
  if normalized ≤ 0.040449936 then normalized / 12.92 * 100
  else ((normalized + 0.055) / 1.055) ^ (2.4 : ℝ) * 100

/-- Embedding of `color_utils.delinearized` (inverse sRGB gamma,
rounded to the nearest integer, halves to even, and clamped to 0..255). -/
noncomputable def delinearized (rgbComponent : ℝ) : ℤ :=
  let normalized := rgbComponent / 100
  let d := if normalized ≤ 0.0031308 then normalized * 12.92
    else 1.055 * normalized ^ ((1 : ℝ) / 2.4) - 0.055
  clamp_int 0 255 (pyRound (d * 255))

/-- Embedding of `color_utils.argb_from_xyz` (matrix applied with the
explicit `matrix[i][j] * component` sums of the source). -/
noncomputable def argb_from_xyz (x y z : ℝ) : ℤ :=
  let matrix := XYZ_TO_SRGB
  let linearr := matrix.m00 * x + matrix.m01 * y + matrix.m02 * z
  let linearg := matrix.m10 * x + matrix.m11 * y + matrix.m12 * z
  let linearb := matrix.m20 * x + matrix.m21 * y + matrix.m22 * z
  argb_from_rgb (delinearized linearr) (delinearized linearg)
    (delinearized linearb)

/-- Embedding of `color_utils.xyz_from_argb`:
`matrix_multiply([r, g, b], SRGB_TO_XYZ)` with `matrix_multiply` the
`numpy.dot` row-times-matrix contraction defined above. -/
noncomputable def xyz_from_argb (argb : ℤ) : ℝ × ℝ × ℝ :=
  let r := linearized (red_from_argb argb : ℝ)
  let g := linearized (green_from_argb argb : ℝ)
  let b := linearized (blue_from_argb argb : ℝ)
  matrix_multiply (r, g, b) SRGB_TO_XYZ

/-- Embedding of `color_utils.lab_invf`. -/
noncomputable def lab_invf (ft : ℝ) : ℝ :=
  let e := 216 / 24389
  let kappa := 24389 / 27
  let ft3 := ft * ft * ft
  if ft3 > e then ft3 else (116 * ft - 16) / kappa

/-- Embedding of `color_utils.argd_from_lab` (name as in the source). -/
noncomputable def argd_from_lab (l a b : ℝ) : ℤ :=
  let white_point := WHITE_POINT_D65
  let fy := (l + 16) / 116
  let fx := a / 500 + fy
  let fz := fy - b / 200
  let xnormalized := lab_invf fx
  let ynormalized := lab_invf fy
  let znormalized := lab_invf fz
  argb_from_xyz (xnormalized * white_point.1) (ynormalized * white_point.2.1)
    (znormalized * white_point.2.2)

/-- Embedding of `color_utils.argb_From_lstar` (name as in the source). -/
noncomputable def argb_From_lstar (lstar : ℝ) : ℤ :=
  let fy := (lstar + 16) / 116
  let fz := fy
  let fx := fy
  let kappa := 24389 / 27
  let epsilon := 216 / 24389
  let l_exceeds_epsilon_kappa := lstar > 8
  let y := if l_exceeds_epsilon_kappa then fy * fy * fy else lstar / kappa
  let cube_exceed_epsilon := fy * fy * fy > epsilon
  let x := if cube_exceed_epsilon then fx * fx * fx else lstar / kappa
  let z := if cube_exceed_epsilon then fz * fz * fz else lstar / kappa
  let white_point := WHITE_POINT_D65
  argb_from_xyz (x * white_point.1) (y * white_point.2.1) (z * white_point.2.2)

/-- Embedding of `color_utils.lstar_from_argb`. -/
noncomputable def lstar_from_argb (argb : ℤ) : ℝ :=
  let y := (xyz_from_argb argb).2.1 / 100
  let e := 216 / 24389
  if y ≤ e then 24389 / 27 * y
  else 116 * y ^ ((1 : ℝ) / 3) - 16

end Mcu

namespace Mcup

/-- Embedding of the constant `SRGB_TO_XYZ` of
`material_color_utilities_python.utils.color_utils`. -/
noncomputable def SRGB_TO_XYZ : Mat3 ℝ :=
  ⟨0.41233895, 0.35762064, 0.18051042,
   0.2126, 0.7152, 0.0722,
   0.01932141, 0.11916382, 0.95034478⟩

/-- Embedding of the constant `XYZ_TO_SRGB` of
`material_color_utilities_python.utils.color_utils`. -/
noncomputable def XYZ_TO_SRGB : Mat3 ℝ :=
  ⟨3.2413774792388685, -1.5376652402851851, -0.49885366846268053,
   -0.9691452513005321, 1.8758853451067872, 0.04156585616912061,
   0.05562093689691305, -0.20395524564742123, 1.0571799111220335⟩

/-- Embedding of `color_utils.rshift` (camelCase tree). -/
def rshift (val : ℤ) (n : ℕ) : ℤ :=
  if 0 ≤ val then val.fdiv (2 ^ n) else (val + 0x100000000).fdiv (2 ^ n)

/-- Embedding of `color_utils.argbFromRgb` (see `Mcu.argb_from_rgb` for
the bitwise-to-arithmetic translation). -/
def argbFromRgb (red green blue : ℤ) : ℤ :=
  rshift (255 * 2 ^ 24 + red % 256 * 2 ^ 16 + green % 256 * 2 ^ 8 +
    blue % 256) 0

/-- Embedding of `color_utils.redFromArgb`: `argb >> 16 & 255`. -/
def redFromArgb (argb : ℤ) : ℤ := (argb.fdiv (2 ^ 16)) % 256

/-- Embedding of `color_utils.greenFromArgb`: `argb >> 8 & 255`. -/
def greenFromArgb (argb : ℤ) : ℤ := (argb.fdiv (2 ^ 8)) % 256

/-- Embedding of `color_utils.blueFromArgb`: `argb & 255`. -/
def blueFromArgb (argb : ℤ) : ℤ := argb % 256

/-- Embedding of `color_utils.linearized` (camelCase tree; the body is
identical to the snake_case variant). -/
noncomputable def linearized (rgbComponent : ℝ) : ℝ :=
  let normalized := rgbComponent / 255
  if normalized ≤ 0.040449936 then normalized / 12.92 * 100
  else ((normalized + 0.055) / 1.055) ^ (2.4 : ℝ) * 100

/-- Embedding of `color_utils.delinearized` (camelCase tree; the body is
identical to the snake_case variant). -/
noncomputable def delinearized (rgbComponent : ℝ) : ℤ :=
  let normalized := rgbComponent / 100
  let d := if normalized ≤ 0.0031308 then normalized * 12.92
    else 1.055 * normalized ^ ((1 : ℝ) / 2.4) - 0.055
  clampInt 0 255 (pyRound (d * 255))

/-- Embedding of `color_utils.argbFromXyz`. -/
noncomputable def argbFromXyz (x y z : ℝ) : ℤ :=
  let matrix := XYZ_TO_SRGB
  let linearR := matrix.m00 * x + matrix.m01 * y + matrix.m02 * z
  let linearG := matrix.m10 * x + matrix.m11 * y + matrix.m12 * z
  let linearB := matrix.m20 * x + matrix.m21 * y + matrix.m22 * z
  argbFromRgb (delinearized linearR) (delinearized linearG)
    (delinearized linearB)

/-- Embedding of `color_utils.xyzFromArgb`:
`matrixMultiply([r, g, b], SRGB_TO_XYZ)` with `matrixMultiply` the
matrix-times-column-vector product defined above. -/
noncomputable def xyzFromArgb (argb : ℤ) : ℝ × ℝ × ℝ :=
  let r := linearized (redFromArgb argb : ℝ)
  let g := linearized (greenFromArgb argb : ℝ)
  let b := linearized (blueFromArgb argb : ℝ)
  matrixMultiply (r, g, b) SRGB_TO_XYZ

/-- Embedding of `color_utils.lstarFromArgb`. -/
noncomputable def lstarFromArgb (argb : ℤ) : ℝ :=
  let y := (xyzFromArgb argb).2.1 / 100
  let e := 216 / 24389
  if y ≤ e then 24389 / 27 * y
  else 116 * y ^ ((1 : ℝ) / 3) - 16

end Mcup

/-- Embedding of the `Cam16` record (`hct/cam16.py`, `__init__`):
nine doubles. -/
structure Cam16 where
  hue : ℝ
  chroma : ℝ
  j : ℝ
  q : ℝ
  m : ℝ
  s : ℝ
  jstar : ℝ
  astar : ℝ
  bstar : ℝ

/-- Modelled from the spec: the `ViewingConditions` class
(`material_color_utilities.hct.viewing_conditions`) is not among the
provided sources; only its fields, exactly those consumed by `cam16.py`
(`rgbD`, `fl`, `fLRoot`, `n`, `aw`, `nbb`, `ncb`, `c`, `nc`, `z`), are
modelled, as a record of doubles. -/
structure ViewingConditions where
  n : ℝ
  aw : ℝ
  nbb : ℝ
  ncb : ℝ
  c : ℝ
  nc : ℝ
  z : ℝ
  fl : ℝ
  fLRoot : ℝ
  rgbD0 : ℝ
  rgbD1 : ℝ
  rgbD2 : ℝ

namespace Cam16

/-- Embedding of the `alpha` line of `Cam16.viewed`:
`0 if self.chroma == 0 or self.j == 0 else self.chroma / math.sqrt(self.j / 100)`. -/
noncomputable def viewed_alpha (cam : Cam16) : ℝ :=
  if cam.chroma = 0 ∨ cam.j = 0 then 0
  else cam.chroma / Real.sqrt (cam.j / 100)

/-- Embedding of the `t` line of `Cam16.viewed`. -/
noncomputable def viewed_t (cam : Cam16) (vc : ViewingConditions) : ℝ :=
  (viewed_alpha cam / ((1.64 - (0.29 : ℝ) ^ vc.n) ^ (0.73 : ℝ))) ^ ((1 : ℝ) / 0.9)

/-- Embedding of the `hRad` line of `Cam16.viewed`. -/
noncomputable def viewed_hRad (cam : Cam16) : ℝ := cam.hue * Real.pi / 180

/-- Embedding of the `eHue` line of `Cam16.viewed`. -/
noncomputable def viewed_eHue (cam : Cam16) : ℝ :=
  0.25 * (Real.cos (viewed_hRad cam + 2) + 3.8)

/-- Embedding of the `ac` line of `Cam16.viewed`. -/
noncomputable def viewed_ac (cam : Cam16) (vc : ViewingConditions) : ℝ :=
  vc.aw * (cam.j / 100) ^ ((1 : ℝ) / vc.c / vc.z)

/-- Embedding of the `p1` line of `Cam16.viewed`. -/
noncomputable def viewed_p1 (cam : Cam16) (vc : ViewingConditions) : ℝ :=
  viewed_eHue cam * (50000 / 13) * vc.nc * vc.ncb

/-- Embedding of the `p2` line of `Cam16.viewed`. -/
noncomputable def viewed_p2 (cam : Cam16) (vc : ViewingConditions) : ℝ :=
  viewed_ac cam vc / vc.nbb

/-- Denominator subterm of the `gamma` line of `Cam16.viewed`:
`23 * p1 + 11 * t * hCos + 108 * t * hSin`. -/
noncomputable def viewed_gammaDenom (cam : Cam16) (vc : ViewingConditions) : ℝ :=
  23 * viewed_p1 cam vc + 11 * viewed_t cam vc * Real.cos (viewed_hRad cam) +
    108 * viewed_t cam vc * Real.sin (viewed_hRad cam)

/-- Embedding of the `gamma` line of `Cam16.viewed`. -/
noncomputable def viewed_gamma (cam : Cam16) (vc : ViewingConditions) : ℝ :=
  23 * (viewed_p2 cam vc + 0.305) * viewed_t cam vc / viewed_gammaDenom cam vc

/-- Embedding of the `a` line of `Cam16.viewed`: `gamma * hCos`. -/
noncomputable def viewed_a (cam : Cam16) (vc : ViewingConditions) : ℝ :=
  viewed_gamma cam vc * Real.cos (viewed_hRad cam)

/-- Embedding of the `b` line of `Cam16.viewed`: `gamma * hSin`. -/
noncomputable def viewed_b (cam : Cam16) (vc : ViewingConditions) : ℝ :=
  viewed_gamma cam vc * Real.sin (viewed_hRad cam)

/-- Embedding of the `rA` line of `Cam16.viewed`. -/
noncomputable def viewed_rA (cam : Cam16) (vc : ViewingConditions) : ℝ :=
  (460 * viewed_p2 cam vc + 451 * viewed_a cam vc + 288 * viewed_b cam vc) / 1403

/-- Embedding of the `gA` line of `Cam16.viewed`. -/
noncomputable def viewed_gA (cam : Cam16) (vc : ViewingConditions) : ℝ :=
  (460 * viewed_p2 cam vc - 891 * viewed_a cam vc - 261 * viewed_b cam vc) / 1403

/-- Embedding of the `bA` line of `Cam16.viewed`. -/
noncomputable def viewed_bA (cam : Cam16) (vc : ViewingConditions) : ℝ :=
  (460 * viewed_p2 cam vc - 220 * viewed_a cam vc - 6300 * viewed_b cam vc) / 1403

/-- Embedding of `Cam16.viewed` (`hct/cam16.py` lines 234-262), assembled
from the line-by-line subterm definitions above. -/
noncomputable def viewed (cam : Cam16) (vc : ViewingConditions) : ℤ :=
  let ac := vc.aw * (cam.j / 100) ^ ((1 : ℝ) / vc.c / vc.z)
  let p2 := ac / vc.nbb
  let rA := viewed_rA cam vc
  let gA := viewed_gA cam vc
  let bA := viewed_bA cam vc
  let rCBase := max 0 (27.13 * |rA| / (400 - |rA|))
  let rC := Mcu.signum rA * (100 / vc.fl) * rCBase ^ ((1 : ℝ) / 0.42)
  let gCBase := max 0 (27.13 * |gA| / (400 - |gA|))
  let gC := Mcu.signum gA * (100 / vc.fl) * gCBase ^ ((1 : ℝ) / 0.42)
  let bCBase := max 0 (27.13 * |bA| / (400 - |bA|))
  let bC := Mcu.signum bA * (100 / vc.fl) * bCBase ^ ((1 : ℝ) / 0.42)
  let rF := rC / vc.rgbD0
  let gF := gC / vc.rgbD1
  let bF := bC / vc.rgbD2
  let x := 1.86206786 * rF - 1.01125463 * gF + 0.14918677 * bF
  let y := 0.38752654 * rF + 0.62144744 * gF - 0.00897398 * bF
  let z := -0.01584150 * rF - 0.03412294 * gF + 1.04996444 * bF
  let _ := p2
  Mcu.argb_from_xyz x y z

/-- Statement that every division executed by `Cam16.viewed` on its input
has a nonzero denominator (divisions by nonzero numeric literals such as
`100`, `1403`, `180` are trivially safe and omitted): the
denominators are `math.sqrt(self.j / 100)` in `alpha` (a division only
performed when the `chroma == 0 or j == 0` special case is NOT taken),
the power `(1.64 - 0.29 ** n) ** 0.73` in `t`, the viewing-condition
divisors `c` and `z` (in the exponent of `ac`), the `gamma` denominator,
`400 - abs(...)` for each of the three cone responses, `fl`, `nbb`,
and the three `rgbD` components. -/
noncomputable def viewedDivSafe (cam : Cam16) (vc : ViewingConditions) : Prop :=
  (¬(cam.chroma = 0 ∨ cam.j = 0) → Real.sqrt (cam.j / 100) ≠ 0) ∧
  ((1.64 - (0.29 : ℝ) ^ vc.n) ^ (0.73 : ℝ) ≠ 0) ∧
  vc.c ≠ 0 ∧ vc.z ≠ 0 ∧
  viewed_gammaDenom cam vc ≠ 0 ∧
  (400 - |viewed_rA cam vc| ≠ 0) ∧
  (400 - |viewed_gA cam vc| ≠ 0) ∧
  (400 - |viewed_bA cam vc| ≠ 0) ∧
  vc.fl ≠ 0 ∧ vc.nbb ≠ 0 ∧ vc.rgbD0 ≠ 0 ∧ vc.rgbD1 ≠ 0 ∧ vc.rgbD2 ≠ 0

/-- Embedding of `Cam16.fromJch_in_viewing_conditions`. -/
noncomputable def fromJch_in_viewing_conditions (j c h : ℝ)
    (vc : ViewingConditions) : Cam16 :=
  let q := (4 / vc.c) * Real.sqrt (j / 100) * (vc.aw + 4) * vc.fLRoot
  let m := c * vc.fLRoot
  let alpha := c / Real.sqrt (j / 100)
  let s := 50 * Real.sqrt ((alpha * vc.c) / (vc.aw + 4))
  let hueRadians := h * Real.pi / 180
  let jstar := ((1 + 100 * 0.007) * j) / (1 + 0.007 * j)
  let mstar := (1 / 0.0228) * Real.log (1 + 0.0228 * m)
  let astar := mstar * Real.cos hueRadians
  let bstar := mstar * Real.sin hueRadians
  ⟨h, c, j, q, m, s, jstar, astar, bstar⟩

/-- Semantics of `math.atan2 y x` as the complex argument of `x + y*I`,
with values in (-pi, pi]. -/
noncomputable def atan2 (y x : ℝ) : ℝ := Complex.arg ⟨x, y⟩

/-- Embedding of `Cam16.fromUcs_in_viewing_conditions`. -/
noncomputable def fromUcs_in_viewing_conditions (jstar astar bstar : ℝ)
    (vc : ViewingConditions) : Cam16 :=
  let a := astar
  let b := bstar
  let m := Real.sqrt (a * a + b * b)
  let bigM := (Real.exp (m * 0.0228) - 1) / 0.0228
  let c := bigM / vc.fLRoot
  let h0 := atan2 b a * (180 / Real.pi)
  let h := if h0 < 0 then h0 + 360 else h0
  let j := jstar / (1 - (jstar - 100) * 0.007)
  fromJch_in_viewing_conditions j c h vc

end Cam16

namespace Blend

/-- Embedding of `Blend.rotation_direction` (`blend.py`): `numpy.argmin`
returns the FIRST index attaining the minimum of the three absolute
deltas, and `numpy.sign` has the same semantics as `math_utils.signum`;
the second source argument is named `to`, which is a Lean keyword, so it
is renamed `to_v` here. -/
def rotation_direction {α : Type} [LinearOrderedField α] (from_v to_v : α) : α :=
  let v0 := to_v - from_v
  let v1 := to_v - from_v + 360
  let v2 := to_v - from_v - 360
  if |v0| ≤ |v1| ∧ |v0| ≤ |v2| then Mcu.signum v0
  else if |v1| ≤ |v2| then Mcu.signum v1
  else Mcu.signum v2

/-- Embedding of the core of `Blend.cam16_ucs` (`blend.py` lines 88-98):
the computation of the interpolated CAM16-UCS coordinates
`(jstar, astar, bstar)` from the two endpoint `Cam16` values.  In the
source, `from_cam` and `to_cam` are `Cam16.from_int` of the two argb
arguments, and the resulting triple is returned as
`Cam16.from_ucs(jstar, astar, bstar).to_int()`.  Line 94 of the source
binds `toa = to_cam.astar` and line 95 immediately rebinds
`toa = to_cam.bstar`; only the final binding is live, which this
embedding reproduces faithfully. -/
noncomputable def cam16_ucs_jab (from_cam to_cam : Cam16) (amount : ℝ) :
    ℝ × ℝ × ℝ :=
  let fromj := from_cam.jstar
  let froma := from_cam.astar
  let fromb := from_cam.bstar
  let toj := to_cam.jstar
  let toa := to_cam.bstar
  let jstar := fromj + (toj - fromj) * amount
  let astar := froma + (toa - froma) * amount
  let bstar := fromb + (toa - fromb) * amount
  (jstar, astar, bstar)

/-- Modelled from the spec: `cam16Ucs(from, to, amount)` performs linear
interpolation of each of (J*, a*, b*) INDEPENDENTLY between the two
endpoint `Cam16` values; this is the triple the specification requires
`Blend.cam16_ucs` to feed into `Cam16.from_ucs`. -/
noncomputable def cam16_ucs_jab_spec (from_cam to_cam : Cam16) (amount : ℝ) :
    ℝ × ℝ × ℝ :=
  (Mcu.lerp from_cam.jstar to_cam.jstar amount,
   Mcu.lerp from_cam.astar to_cam.astar amount,
   Mcu.lerp from_cam.bstar to_cam.bstar amount)

end Blend

/-- Modelled from the spec: the `Hct` color value (`hct/hct.py` is not
among the provided sources): an immutable triple of hue, chroma and
tone. -/
structure HctColor (α : Type) where
  hue : α
  chroma : α
  tone : α

/-- Modelled from the spec: the three operations of the missing `Hct`
class that `blend.py` uses: `Hct.from_int`, `Hct.from_hct` and
`Hct.to_int`. -/
structure HctOps (α : Type) where
  fromInt : ℤ → HctColor α
  fromHct : α → α → α → HctColor α
  toInt : HctColor α → ℤ

/-- Validity of an ARGB integer per the spec data model: the four packed
channels each lie in 0..255 and the alpha byte is 0xFF. -/
def valid_argb (c : ℤ) : Prop := 0xFF000000 ≤ c ∧ c ≤ 0xFFFFFFFF

/-- Modelled from the spec: the properties the spec asserts of the
missing `Hct` class: (1) for a valid color, an Hct constructed from the
hue, chroma and tone of that same color converts back to it exactly;
(2) the hue of an Hct lies in [0, 360); (3) `Hct.from_hct` keeps the
requested hue and tone, and stores an achievable chroma that never
exceeds the requested chroma (gamut clipping). -/
def HctSpecLaws {α : Type} [LinearOrderedField α] (ops : HctOps α) : Prop :=
  (∀ c : ℤ, valid_argb c →
    ops.toInt (ops.fromHct (ops.fromInt c).hue (ops.fromInt c).chroma
      (ops.fromInt c).tone) = c) ∧
  (∀ c : ℤ, 0 ≤ (ops.fromInt c).hue ∧ (ops.fromInt c).hue < 360) ∧
  (∀ h ch t : α, (ops.fromHct h ch t).hue = h ∧ (ops.fromHct h ch t).tone = t ∧
    (ops.fromHct h ch t).chroma ≤ ch)

namespace Blend

/-- Embedding of `Blend.harmonize` (`blend.py` lines 14-38), parametric
over the operations of the missing `Hct` class. -/
def harmonize {α : Type} [LinearOrderedField α] [FloorRing α]
    (ops : HctOps α) (designColor sourceColor : ℤ) : ℤ :=
  let from_hct := ops.fromInt designColor
  let to_hct := ops.fromInt sourceColor
  let difference_degrees_v := Mcu.difference_degrees from_hct.hue to_hct.hue
  let rotation_degrees := min (difference_degrees_v * 0.5) 15
  let output_hue := Mcu.sanitize_degrees_double
    (from_hct.hue + rotation_degrees * rotation_direction from_hct.hue to_hct.hue)
  ops.toInt (ops.fromHct output_hue from_hct.chroma from_hct.tone)

end Blend

section BasicLemmas

/-- Saturating-clamp characterization shared by all four clamp variants. -/
theorem clamp_core {α : Type} [LinearOrder α] (lo hi x : α) (h : lo ≤ hi) :
    Mcu.clamp_int lo hi x = max lo (min hi x) := by
  unfold Mcu.clamp_int
  split_ifs with h1 h2
  · rw [min_eq_right (le_of_lt (lt_of_lt_of_le h1 h)), max_eq_left (le_of_lt h1)]
  · rw [min_eq_left (le_of_lt h2), max_eq_right h]
  · rw [min_eq_right (not_lt.1 h2), max_eq_right (not_lt.1 h1)]

/-- The clamp keeps a value already inside the interval. -/
theorem clamp_int_of_mem {α : Type} [LinearOrder α] {lo hi x : α}
    (h1 : lo ≤ x) (h2 : x ≤ hi) : Mcu.clamp_int lo hi x = x := by
  unfold Mcu.clamp_int
  rw [if_neg (not_lt.2 h1), if_neg (not_lt.2 h2)]

/-- The clamp lands inside the interval whenever lo ≤ hi. -/
theorem clamp_int_mem {α : Type} [LinearOrder α] (lo hi x : α) (h : lo ≤ hi) :
    lo ≤ Mcu.clamp_int lo hi x ∧ Mcu.clamp_int lo hi x ≤ hi := by
  unfold Mcu.clamp_int
  split_ifs with h1 h2
  · exact ⟨le_refl _, h⟩
  · exact ⟨h, le_refl _⟩
  · exact ⟨not_lt.1 h1, not_lt.1 h2⟩

/-- The two linearize functions of the two module trees are the same
function. -/
theorem mcup_linearized_eq : Mcup.linearized = Mcu.linearized := rfl

/-- The two delinearize functions of the two module trees are the same
function. -/
theorem mcup_delinearized_eq : Mcup.delinearized = Mcu.delinearized := rfl

/-- Value of `linearized` at channel 255: exactly 100. -/
theorem mcu_linearized_255 : Mcu.linearized 255 = 100 := by
  unfold Mcu.linearized
  rw [if_neg (by norm_num)]
  have h : ((255 : ℝ) / 255 + 0.055) / 1.055 = 1 := by norm_num
  rw [h, Real.one_rpow]
  norm_num

/-- Value of `linearized` at channel 0: exactly 0. -/
theorem mcu_linearized_0 : Mcu.linearized 0 = 0 := by
  unfold Mcu.linearized
  rw [if_pos (by norm_num)]
  norm_num

/-- Rounding a real that lies strictly within a half-unit of the integer
`c` yields `c` (whichever way halves are rounded). -/
theorem pyRound_eq_of_mem {x : ℝ} {c : ℤ} (h1 : (c : ℝ) - 1 / 2 < x)
    (h2 : x < (c : ℝ) + 1 / 2) : pyRound x = c := by
  unfold pyRound
  have hfr : Int.fract x ≠ 1 / 2 := by
    intro hf
    have hx : x = (⌊x⌋ : ℝ) + 1 / 2 := by
      have h0 := Int.fract_add_floor x
      rw [hf] at h0
      linarith
    rw [hx] at h1 h2
    have l1 : (c : ℝ) - 1 < (⌊x⌋ : ℝ) := by linarith
    have l2 : (⌊x⌋ : ℝ) < (c : ℝ) := by linarith
    have i1 : c - 1 < ⌊x⌋ := by exact_mod_cast l1
    have i2 : ⌊x⌋ < c := by exact_mod_cast l2
    omega
  rw [if_neg hfr, round_eq]
  apply Int.floor_eq_iff.2
  constructor
  · linarith
  · linarith

/-- A real at most -1 rounds to a negative integer. -/
theorem pyRound_neg {x : ℝ} (h : x ≤ -1) : pyRound x < 0 := by
  unfold pyRound
  split_ifs with hf he
  · have : (⌊x⌋ : ℝ) ≤ x := Int.floor_le x
    have : (⌊x⌋ : ℝ) ≤ -1 := le_trans this h
    have : ⌊x⌋ ≤ -1 := by exact_mod_cast this
    omega
  · have hx : x = (⌊x⌋ : ℝ) + 1 / 2 := by
      have h0 := Int.fract_add_floor x
      rw [hf] at h0
      linarith
    have : (⌊x⌋ : ℝ) + 1 / 2 ≤ -1 := by rw [← hx]; exact h
    have : (⌊x⌋ : ℝ) ≤ -3/2 := by linarith
    have : (⌊x⌋ : ℝ) < -1 := by linarith
    have : ⌊x⌋ < -1 := by exact_mod_cast this
    omega
  · rw [round_eq]
    have : x + 1 / 2 ≤ -1/2 := by linarith
    have h1 : ⌊x + 1/2⌋ ≤ ⌊(-1/2 : ℝ)⌋ := Int.floor_le_floor this
    have h2 : ⌊(-1/2 : ℝ)⌋ = -1 := by
      apply Int.floor_eq_iff.2; constructor <;> norm_num
    omega

end BasicLemmas

section ClaimC8

/-- C8 counterexample: at a = 400, b = 0 (a degree value outside one
full turn of b) `difference_degrees` is negative, so the unrestricted
range claim [0, 180] fails; both module variants agree on this value. -/
theorem C8_counterexample :
    Mcu.difference_degrees (400 : ℚ) 0 < 0 ∧
      Mcup.differenceDegrees (400 : ℚ) 0 < 0 := by
  constructor <;> norm_num [Mcu.difference_degrees, Mcup.differenceDegrees]

/-- C8 (amended): for all degree values, `difference_degrees` is
symmetric, vanishes on the diagonal, and the camelCase variant computes
the same function; the range bound 0 ≤ d ≤ 180 holds whenever
|a - b| ≤ 360, in particular on sanitized degrees in [0, 360) (but not
for arbitrary reals, see the counterexample). -/
theorem C8_difference_degrees_props {α : Type} [LinearOrderedField α] (a b x : α) :
    Mcu.difference_degrees a b = Mcu.difference_degrees b a ∧
    Mcu.difference_degrees x x = 0 ∧
    Mcup.differenceDegrees a b = Mcu.difference_degrees a b ∧
    (|a - b| ≤ 360 →
      0 ≤ Mcu.difference_degrees a b ∧ Mcu.difference_degrees a b ≤ 180) := by
  refine ⟨?_, ?_, rfl, fun h => ⟨?_, ?_⟩⟩
  · unfold Mcu.difference_degrees
    rw [abs_sub_comm a b]
  · unfold Mcu.difference_degrees
    rw [sub_self, abs_zero, zero_sub, abs_neg,
      abs_of_nonneg (by norm_num : (0 : α) ≤ 180)]
    ring
  · unfold Mcu.difference_degrees
    have h0 : (0 : α) ≤ |a - b| := abs_nonneg _
    have hb : |(|a - b|) - 180| ≤ 180 := abs_le.2 ⟨by linarith, by linarith⟩
    linarith
  · unfold Mcu.difference_degrees
    have h0 : (0 : α) ≤ |(|a - b|) - 180| := abs_nonneg _
    linarith

/-- Witness for C8: the amended theorem applied at ℚ values 10, 50, 7. -/
theorem C8_witness :
    0 ≤ Mcu.difference_degrees (10 : ℚ) 50 ∧
    Mcu.difference_degrees (10 : ℚ) 50 ≤ 180 ∧
    Mcu.difference_degrees (10 : ℚ) 50 = Mcu.difference_degrees (50 : ℚ) 10 ∧
    Mcu.difference_degrees (7 : ℚ) 7 = 0 := by
  obtain ⟨hsym, hdiag, -, hrange⟩ := C8_difference_degrees_props (10 : ℚ) 50 7
  obtain ⟨hlo, hhi⟩ := hrange (by norm_num)
  exact ⟨hlo, hhi, hsym, hdiag⟩

end ClaimC8

section ClaimC9

/-- C9 counterexample: called with min = 10 > max = 0, the clamps return
normally (the sources contain no error or assertion path at all), which
refutes the claim that they must error or assert; the value returned is
the lower bound 10, which does not even lie below max. -/
theorem C9_counterexample :
    Mcu.clamp_int (10 : ℤ) 0 5 = 10 ∧ Mcu.clamp_double (10 : ℚ) 0 5 = 10 ∧
    Mcup.clampInt (10 : ℤ) 0 5 = 10 ∧ Mcup.clampDouble (10 : ℚ) 0 5 = 10 := by
  refine ⟨?_, ?_, ?_, ?_⟩ <;> decide

/-- C9 (amended): the clamp operations perform no min ≤ max check and
never error; for min ≤ max they return the saturating clamp of the input
into [min, max] (equal to max lo (min hi x)), in all four variants; for
min > max they still return a value (min if the input is below min, else
max if above max, else the input). -/
theorem C9_clamp_props {α : Type} [LinearOrder α] (lo hi x : α) (h : lo ≤ hi) :
    Mcu.clamp_int lo hi x = max lo (min hi x) ∧
    Mcu.clamp_double lo hi x = max lo (min hi x) ∧
    Mcup.clampInt lo hi x = max lo (min hi x) ∧
    Mcup.clampDouble lo hi x = max lo (min hi x) := by
  have key := clamp_core lo hi x h
  exact ⟨key, key, key, key⟩

/-- Witness for C9: the amended theorem applied at 0 ≤ 255 with
input 300. -/
theorem C9_witness : Mcu.clamp_int (0 : ℤ) 255 300 = max 0 (min 255 300) :=
  (C9_clamp_props (0 : ℤ) 255 300 (by decide)).1

end ClaimC9

section ClaimC2

/-- Helper: the red channel of 0xFFFF0000 is 255. -/
theorem mcu_red_ffff0000 : Mcu.red_from_argb 0xFFFF0000 = 255 := by decide

/-- Helper: the green channel of 0xFFFF0000 is 0. -/
theorem mcu_green_ffff0000 : Mcu.green_from_argb 0xFFFF0000 = 0 := by decide

/-- Helper: the blue channel of 0xFFFF0000 is 0. -/
theorem mcu_blue_ffff0000 : Mcu.blue_from_argb 0xFFFF0000 = 0 := by decide

/-- C2 counterexample: at the valid ARGB color 0xFFFF0000 (pure red) the
two variants return different XYZ vectors (Y = 35.762064 in the
snake_case tree, which contracts the row with the first matrix index,
versus Y = 21.26 in the camelCase tree, which contracts with the
second). -/
theorem C2_counterexample :
    Mcu.xyz_from_argb 0xFFFF0000 ≠ Mcup.xyzFromArgb 0xFFFF0000 := by
  intro h
  have h1 : (Mcu.xyz_from_argb 0xFFFF0000).2.1 = 35.762064 := by
    unfold Mcu.xyz_from_argb
    rw [mcu_red_ffff0000, mcu_green_ffff0000, mcu_blue_ffff0000]
    push_cast
    rw [mcu_linearized_255, mcu_linearized_0]
    unfold Mcu.matrix_multiply Mcu.SRGB_TO_XYZ
    norm_num
  have h2 : (Mcup.xyzFromArgb 0xFFFF0000).2.1 = 21.26 := by
    unfold Mcup.xyzFromArgb Mcup.redFromArgb Mcup.greenFromArgb Mcup.blueFromArgb
    have hr : ((0xFFFF0000 : ℤ).fdiv (2 ^ 16)) % 256 = 255 := by decide
    have hg : ((0xFFFF0000 : ℤ).fdiv (2 ^ 8)) % 256 = 0 := by decide
    have hb : (0xFFFF0000 : ℤ) % 256 = 0 := by decide
    rw [hr, hg, hb]
    push_cast
    rw [mcup_linearized_eq, mcu_linearized_255, mcu_linearized_0]
    unfold Mcup.matrixMultiply Mcup.SRGB_TO_XYZ
    norm_num
  rw [h, h2] at h1
  norm_num at h1

/-- C2 (amended): the two variants implement different contractions:
`matrix_multiply(row, m)` of the snake_case tree equals
`matrixMultiply(row, transpose m)` of the camelCase tree for every row
vector and every 3 × 3 matrix, and they agree only where the matrix is
symmetric; applied to the non-symmetric `SRGB_TO_XYZ` they differ (see
the counterexample). -/
theorem C2_matrix_transpose_equiv {α : Type} [LinearOrderedField α]
    (row : α × α × α) (m : Mat3 α) :
    Mcu.matrix_multiply row m = Mcup.matrixMultiply row m.transpose := rfl

end ClaimC2

section ClaimC3

/-- Endpoint value used to exhibit the `cam16_ucs` defect: the origin of
CAM16-UCS space. -/
noncomputable def camC3from : Cam16 := ⟨0, 0, 0, 0, 0, 0, 0, 0, 0⟩

/-- Endpoint value used to exhibit the `cam16_ucs` defect: a value whose
UCS a* is 1 while its b* is 0, so that the overwritten `toa` binding is
observable. -/
noncomputable def camC3to : Cam16 := ⟨0, 0, 0, 0, 0, 0, 0, 1, 0⟩

/-- C3: evaluation of the `cam16_ucs` interpolation core at the failing
input (amount = 1, target a* = 1, target b* = 0).  Because line 95 of
`blend.py` overwrites `toa = to_cam.astar` with `toa = to_cam.bstar`,
the code interpolates a* toward b* of the target: it returns a* = 0
where the specified independent interpolation returns a* = 1. -/
theorem C3_cam16_ucs_astar_bug :
    (Blend.cam16_ucs_jab camC3from camC3to 1).2.1 = 0 ∧
    (Blend.cam16_ucs_jab_spec camC3from camC3to 1).2.1 = 1 ∧
    Blend.cam16_ucs_jab camC3from camC3to 1 ≠
      Blend.cam16_ucs_jab_spec camC3from camC3to 1 := by
  refine ⟨by norm_num [Blend.cam16_ucs_jab, camC3from, camC3to], by
    norm_num [Blend.cam16_ucs_jab_spec, Mcu.lerp, camC3from, camC3to], fun h => ?_⟩
  have h1 := congrArg (fun v : ℝ × ℝ × ℝ => v.2.1) h
  norm_num [Blend.cam16_ucs_jab, Blend.cam16_ucs_jab_spec, Mcu.lerp,
    camC3from, camC3to] at h1

end ClaimC3


section HctHelpers

/-- Sanitizing a degree value already in [0, 360) is the identity. -/
theorem sanitize_degrees_double_id {α : Type} [LinearOrderedField α] [FloorRing α]
    {h : α} (h0 : 0 ≤ h) (h1 : h < 360) : Mcu.sanitize_degrees_double h = h := by
  simp only [Mcu.sanitize_degrees_double]
  have hf : ⌊h / 360⌋ = 0 := by
    rw [Int.floor_eq_zero_iff, Set.mem_Ico]
    refine ⟨div_nonneg h0 (by norm_num), ?_⟩
    rw [div_lt_one (by norm_num : (0 : α) < 360)]
    exact h1
  rw [hf]
  push_cast
  rw [mul_zero, sub_zero, if_neg (not_lt.2 h0)]

/-- The angular difference of a hue with itself is zero. -/
theorem difference_degrees_self {α : Type} [LinearOrderedField α] (x : α) :
    Mcu.difference_degrees x x = 0 := by
  unfold Mcu.difference_degrees
  rw [sub_self, abs_zero, zero_sub, abs_neg,
    abs_of_nonneg (by norm_num : (0 : α) ≤ 180)]
  ring

/-- The rotation direction from a hue to itself is zero. -/
theorem rotation_direction_self {α : Type} [LinearOrderedField α] (x : α) :
    Blend.rotation_direction x x = 0 := by
  simp only [Blend.rotation_direction, Mcu.signum]
  rw [sub_self]
  rw [if_pos ⟨by rw [abs_zero]; exact abs_nonneg _, by rw [abs_zero]; exact abs_nonneg _⟩]
  rw [if_neg (lt_irrefl 0), if_pos rfl]

/-- The rotation direction is the sign of a delta of minimal magnitude
among the three candidate deltas. -/
theorem rotation_direction_min_abs {α : Type} [LinearOrderedField α] (a b : α) :
    ∃ v : α, (v = b - a ∨ v = b - a + 360 ∨ v = b - a - 360) ∧
      |v| = min |b - a| (min |b - a + 360| |b - a - 360|) ∧
      Blend.rotation_direction a b = Mcu.signum v := by
  simp only [Blend.rotation_direction]
  split_ifs with h1 h2
  · refine ⟨b - a, Or.inl ?_, ?_, rfl⟩
    · norm_num
    · rw [min_eq_left (le_min (by exact_mod_cast h1.1) (by exact_mod_cast h1.2))]
  · rw [not_and_or] at h1
    have hle : |b - a + 360| ≤ |b - a| := by
      rcases h1 with ha | hb
      · exact le_of_lt (by exact_mod_cast not_le.1 ha)
      · exact le_trans h2 (le_of_lt (by exact_mod_cast not_le.1 hb))
    refine ⟨b - a + 360, Or.inr (Or.inl ?_), ?_, rfl⟩
    · norm_num
    · rw [min_eq_left h2, min_eq_right hle]
  · rw [not_and_or] at h1
    have h2' : |b - a - 360| ≤ |b - a + 360| := le_of_lt (not_le.1 h2)
    have hle : |b - a - 360| ≤ |b - a| := by
      rcases h1 with ha | hb
      · exact le_trans h2' (le_of_lt (not_le.1 ha))
      · exact le_of_lt (not_le.1 hb)
    refine ⟨b - a - 360, Or.inr (Or.inr ?_), ?_, rfl⟩
    · norm_num
    · rw [min_eq_right h2', min_eq_right hle]

end HctHelpers

section ClaimC6

/-- C6 (spec-modelled): for every `Hct` implementation satisfying the
properties the spec asserts of the missing `Hct` class, and every valid
ARGB color `c`, `Blend.harmonize(c, c) = c`: the angular difference of
the hue with itself is 0, so the rotation amount is 0, the rotation
direction is sign 0 = 0, the sanitized hue is unchanged, and the
round-trip law returns the input color. -/
theorem C6_harmonize_self {α : Type} [LinearOrderedField α] [FloorRing α]
    (ops : HctOps α) (laws : HctSpecLaws ops) (c : ℤ) (hv : valid_argb c) :
    Blend.harmonize ops c c = c := by
  obtain ⟨hrt, hrange, -⟩ := laws
  obtain ⟨hh0, hh1⟩ := hrange c
  simp only [Blend.harmonize]
  rw [difference_degrees_self, rotation_direction_self]
  rw [mul_zero, add_zero]
  rw [sanitize_degrees_double_id hh0 hh1]
  exact hrt c hv

/-- Toy `Hct` implementation over ℚ used to witness C6: the color is
stored in the chroma coordinate and recovered by flooring it. -/
def hctOpsC6 : HctOps ℚ :=
  ⟨fun c => ⟨0, (c : ℚ), 0⟩, fun h ch t => ⟨h, ch, t⟩, fun v => ⌊v.chroma⌋⟩

/-- The toy implementation satisfies the spec-asserted laws. -/
theorem hctOpsC6_laws : HctSpecLaws hctOpsC6 := by
  refine ⟨fun c _ => ?_, fun c => by norm_num [hctOpsC6], fun h ch t => ?_⟩
  · simp [hctOpsC6, Int.floor_intCast]
  · exact ⟨rfl, rfl, le_refl _⟩

/-- Witness for C6: the theorem applied to the toy implementation at the
valid color 0xFF123456. -/
theorem C6_witness : Blend.harmonize hctOpsC6 0xFF123456 0xFF123456 = 0xFF123456 :=
  C6_harmonize_self hctOpsC6 hctOpsC6_laws 0xFF123456 ⟨by decide, by decide⟩

end ClaimC6

section ClaimC5

/-- C5 (amended, spec-modelled): `Blend.harmonize` passes the chroma and
the tone of the design color UNCHANGED as the requested chroma and tone
of the final `Hct.from_hct` call, and requests exactly the hue obtained
by rotating the design hue by min(differenceDegrees * 0.5, 15) in the
direction given by the sign of a smallest-magnitude delta among
(diff, diff + 360, diff - 360); the chroma of the RESULT may still be
reduced below the design chroma by the gamut clipping the spec assigns
to `Hct.from_hct` (see the counterexample), so only the requested
values, not the resulting ones, are preserved exactly. -/
theorem C5_harmonize_frame {α : Type} [LinearOrderedField α] [FloorRing α]
    (ops : HctOps α) (d s : ℤ) :
    (Blend.harmonize ops d s = ops.toInt (ops.fromHct
      (Mcu.sanitize_degrees_double ((ops.fromInt d).hue +
        min (Mcu.difference_degrees (ops.fromInt d).hue (ops.fromInt s).hue * 0.5) 15 *
          Blend.rotation_direction (ops.fromInt d).hue (ops.fromInt s).hue))
      (ops.fromInt d).chroma (ops.fromInt d).tone)) ∧
    (∃ v : α,
      (v = (ops.fromInt s).hue - (ops.fromInt d).hue ∨
        v = (ops.fromInt s).hue - (ops.fromInt d).hue + 360 ∨
        v = (ops.fromInt s).hue - (ops.fromInt d).hue - 360) ∧
      |v| = min |(ops.fromInt s).hue - (ops.fromInt d).hue|
        (min |(ops.fromInt s).hue - (ops.fromInt d).hue + 360|
          |(ops.fromInt s).hue - (ops.fromInt d).hue - 360|) ∧
      Blend.rotation_direction (ops.fromInt d).hue (ops.fromInt s).hue =
        Mcu.signum v) :=
  ⟨rfl, rotation_direction_min_abs _ _⟩

/-- Toy `Hct` implementation over ℚ used to refute the unqualified
preservation claim of C5: it satisfies all the spec-asserted laws, but
its gamut clip at hue 15 reduces any requested chroma to 2. -/
def hctOpsC5fromInt : ℤ → HctColor ℚ := fun c =>
  ⟨if c = 4278190082 then 90 else 0, if c = 4278190087 then 2 else 5, (c : ℚ)⟩

/-- Gamut-clipping construction of the toy implementation: any chroma
requested at hue 15 is clipped to 2, elsewhere to 5. -/
def hctOpsC5fromHct : ℚ → ℚ → ℚ → HctColor ℚ := fun h ch t =>
  ⟨h, min ch (if h = 15 then 2 else 5), t⟩

/-- ARGB extraction of the toy implementation. -/
def hctOpsC5toInt : HctColor ℚ → ℤ := fun v =>
  if v.hue = 15 ∧ v.tone = 4278190081 then 4278190087 else ⌊v.tone⌋

/-- The toy implementation bundled. -/
def hctOpsC5 : HctOps ℚ := ⟨hctOpsC5fromInt, hctOpsC5fromHct, hctOpsC5toInt⟩

/-- The clipping toy implementation satisfies the spec-asserted laws. -/
theorem hctOpsC5_laws : HctSpecLaws hctOpsC5 := by
  simp only [hctOpsC5]
  refine ⟨fun c _ => ?_, fun c => ?_, fun h ch t => ⟨rfl, rfl, min_le_left _ _⟩⟩
  · by_cases hc : c = 4278190082
    · norm_num [hctOpsC5fromInt, hctOpsC5fromHct, hctOpsC5toInt, hc,
        Int.floor_intCast]
    · by_cases hc7 : c = 4278190087 <;>
        norm_num [hctOpsC5fromInt, hctOpsC5fromHct, hctOpsC5toInt, hc, hc7,
          Int.floor_intCast]
  · by_cases hc : c = 4278190082 <;> norm_num [hctOpsC5fromInt, hc]

/-- C5 counterexample: an `Hct` implementation satisfying every
spec-asserted law under which `Blend.harmonize` does NOT preserve the
chroma of the design color in the result: harmonizing design color
0xFF000001 (hue 0, chroma 5) with source color 0xFF000002 (hue 90)
rotates the hue to 15, where the gamut clip reduces the chroma to 2. -/
theorem C5_counterexample :
    HctSpecLaws hctOpsC5 ∧
    Blend.harmonize hctOpsC5 4278190081 4278190082 = 4278190087 ∧
    (hctOpsC5.fromInt (Blend.harmonize hctOpsC5 4278190081 4278190082)).chroma ≠
      (hctOpsC5.fromInt 4278190081).chroma := by
  have hfromD : hctOpsC5.fromInt 4278190081 = ⟨0, 5, 4278190081⟩ := by
    norm_num [hctOpsC5, hctOpsC5fromInt]
  have hfromS : hctOpsC5.fromInt 4278190082 = ⟨90, 5, 4278190082⟩ := by
    norm_num [hctOpsC5, hctOpsC5fromInt]
  have hdiff : Mcu.difference_degrees (0 : ℚ) 90 = 90 := by
    norm_num [Mcu.difference_degrees, abs_of_nonneg, abs_of_nonpos]
  have hdir : Blend.rotation_direction (0 : ℚ) 90 = 1 := by
    simp only [Blend.rotation_direction, Mcu.signum]
    have e0 : |(90 : ℚ) - 0| = 90 := by rw [abs_of_nonneg] <;> norm_num
    have e1 : |(90 : ℚ) - 0 + 360| = 450 := by rw [abs_of_nonneg] <;> norm_num
    have e2 : |(90 : ℚ) - 0 - 360| = 270 := by rw [abs_of_nonpos] <;> norm_num
    rw [e0, e1, e2]
    rw [if_pos ⟨by norm_num, by norm_num⟩]
    norm_num
  have hsan : Mcu.sanitize_degrees_double ((0 : ℚ) + min (90 * 0.5) 15 * 1) = 15 := by
    have harg : ((0 : ℚ) + min (90 * 0.5) 15 * 1) = 15 := by
      rw [min_eq_right (by norm_num : (15 : ℚ) ≤ 90 * 0.5)]
      ring
    rw [harg]
    exact sanitize_degrees_double_id (by norm_num) (by norm_num)
  have hmain : Blend.harmonize hctOpsC5 4278190081 4278190082 = 4278190087 := by
    simp only [Blend.harmonize, hfromD, hfromS]
    rw [hdiff, hdir, hsan]
    norm_num [hctOpsC5, hctOpsC5fromHct, hctOpsC5toInt]
  refine ⟨hctOpsC5_laws, hmain, ?_⟩
  rw [hmain, hfromD]
  norm_num [hctOpsC5, hctOpsC5fromInt]

end ClaimC5

section ClaimC7

/-- Well-formedness of a set of viewing conditions: positivity of every
field that `Cam16.viewed` divides by or takes square roots of, the
eccentricity base being positive, and the adapted-white achromatic
response being bounded by 1220 times the background induction factor
(DEFAULT conditions satisfy all of these with a wide margin: there
aw ≈ 29.98 and nbb ≈ 1.0169). -/
def WellFormedVC (vc : ViewingConditions) : Prop :=
  0 < vc.c ∧ 0 < vc.z ∧ 0 < vc.fl ∧ 0 < vc.nbb ∧ 0 < vc.ncb ∧ 0 < vc.nc ∧
  0 < vc.aw ∧ 0 < vc.rgbD0 ∧ 0 < vc.rgbD1 ∧ 0 < vc.rgbD2 ∧
  (0.29 : ℝ) ^ vc.n < 1.64 ∧ vc.aw < 1220 * vc.nbb

/-- Under the `chroma == 0 or j == 0` special case, the `t`, `gamma`,
`a` and `b` intermediates of `Cam16.viewed` all vanish. -/
theorem viewed_tab_zero (cam : Cam16) (vc : ViewingConditions)
    (hcj : cam.chroma = 0 ∨ cam.j = 0) :
    Cam16.viewed_t cam vc = 0 ∧ Cam16.viewed_gamma cam vc = 0 ∧
    Cam16.viewed_a cam vc = 0 ∧ Cam16.viewed_b cam vc = 0 := by
  have halpha : Cam16.viewed_alpha cam = 0 := by
    simp only [Cam16.viewed_alpha]
    exact if_pos hcj
  have ht : Cam16.viewed_t cam vc = 0 := by
    simp only [Cam16.viewed_t, halpha, zero_div]
    exact Real.zero_rpow (by norm_num)
  have hgamma : Cam16.viewed_gamma cam vc = 0 := by
    simp only [Cam16.viewed_gamma, ht, mul_zero, zero_div]
  exact ⟨ht, hgamma, by simp [Cam16.viewed_a, hgamma],
    by simp [Cam16.viewed_b, hgamma]⟩

/-- C7 (amended, spec-modelled): under well-formed viewing conditions
(the class itself is absent from the sources) and for a Cam16 value with
lightness j in the model range [0, 100], the `alpha = 0` special case
for `chroma == 0 or j == 0` makes every division performed by
`Cam16.viewed` have a nonzero denominator.  Without the j ≤ 100 bound or
the well-formedness bound on aw the statement is false (see the
counterexample): the denominator `400 - abs(rA)` can vanish. -/
theorem C7_viewed_div_safe (vc : ViewingConditions) (hwf : WellFormedVC vc)
    (cam : Cam16) (hcj : cam.chroma = 0 ∨ cam.j = 0)
    (hj0 : 0 ≤ cam.j) (hj1 : cam.j ≤ 100) :
    Cam16.viewedDivSafe cam vc := by
  obtain ⟨hc, hz, hfl, hnbb, hncb, hnc, haw, hr0, hr1, hr2, hn, hawb⟩ := hwf
  obtain ⟨ht, hgamma, ha, hb⟩ := viewed_tab_zero cam vc hcj
  have hbase : (0 : ℝ) < 1.64 - (0.29 : ℝ) ^ vc.n := by linarith
  have htden : ((1.64 - (0.29 : ℝ) ^ vc.n) ^ (0.73 : ℝ)) ≠ 0 :=
    ne_of_gt (Real.rpow_pos_of_pos hbase _)
  have heHue : (0.7 : ℝ) ≤ Cam16.viewed_eHue cam := by
    simp only [Cam16.viewed_eHue]
    have hcos := Real.neg_one_le_cos (Cam16.viewed_hRad cam + 2)
    linarith
  have hp1 : 0 < Cam16.viewed_p1 cam vc := by
    simp only [Cam16.viewed_p1]
    have h1 : (0 : ℝ) < Cam16.viewed_eHue cam := lt_of_lt_of_le (by norm_num) heHue
    have h2 : (0 : ℝ) < Cam16.viewed_eHue cam * (50000 / 13) :=
      mul_pos h1 (by norm_num)
    exact mul_pos (mul_pos h2 hnc) hncb
  have hgden : Cam16.viewed_gammaDenom cam vc ≠ 0 := by
    simp only [Cam16.viewed_gammaDenom, ht]
    have he : 23 * Cam16.viewed_p1 cam vc + 11 * 0 * Real.cos (Cam16.viewed_hRad cam) +
        108 * 0 * Real.sin (Cam16.viewed_hRad cam) = 23 * Cam16.viewed_p1 cam vc := by
      ring
    rw [he]
    exact ne_of_gt (by linarith)
  have hp2 : 0 ≤ Cam16.viewed_p2 cam vc ∧ Cam16.viewed_p2 cam vc < 1220 := by
    constructor
    · simp only [Cam16.viewed_p2, Cam16.viewed_ac]
      exact div_nonneg
        (mul_nonneg (le_of_lt haw) (Real.rpow_nonneg (by positivity) _))
        (le_of_lt hnbb)
    · simp only [Cam16.viewed_p2, Cam16.viewed_ac]
      have hle1 : (cam.j / 100) ^ ((1 : ℝ) / vc.c / vc.z) ≤ 1 :=
        Real.rpow_le_one (by positivity) ((div_le_one (by norm_num)).2 hj1)
          (le_of_lt (div_pos (div_pos one_pos hc) hz))
      rw [div_lt_iff₀ hnbb]
      calc vc.aw * (cam.j / 100) ^ ((1 : ℝ) / vc.c / vc.z)
          ≤ vc.aw * 1 := mul_le_mul_of_nonneg_left hle1 (le_of_lt haw)
        _ = vc.aw := mul_one _
        _ < 1220 * vc.nbb := hawb
  have habs : ∀ q : ℝ, q = 460 * Cam16.viewed_p2 cam vc / 1403 →
      400 - |q| ≠ 0 := by
    intro q hq
    have hq0 : 0 ≤ q := by
      rw [hq]
      exact div_nonneg (by linarith [hp2.1]) (by norm_num)
    have hqlt : q < 400 := by
      rw [hq, div_lt_iff₀ (by norm_num : (0:ℝ) < 1403)]
      linarith [hp2.2]
    rw [abs_of_nonneg hq0]
    linarith
  refine ⟨fun hcontra => absurd hcj hcontra, htden, ne_of_gt hc, ne_of_gt hz,
    hgden, ?_, ?_, ?_, ne_of_gt hfl, ne_of_gt hnbb, ne_of_gt hr0,
    ne_of_gt hr1, ne_of_gt hr2⟩
  · exact habs _ (by simp only [Cam16.viewed_rA, ha, hb]; ring)
  · exact habs _ (by simp only [Cam16.viewed_gA, ha, hb]; ring)
  · exact habs _ (by simp only [Cam16.viewed_bA, ha, hb]; ring)

/-- Adversarial viewing conditions for the C7 counterexample: all fields
1 except the achromatic response aw = 28060/23 = 1220, which drives the
cone response rA to exactly 400. -/
noncomputable def vcC7 : ViewingConditions :=
  ⟨1, 28060 / 23, 1, 1, 1, 1, 1, 1, 1, 1, 1, 1⟩

/-- Cam16 value for the C7 counterexample: chroma 0 (so the special case
applies) and ordinary lightness j = 100. -/
noncomputable def camC7 : Cam16 := ⟨0, 0, 100, 0, 0, 0, 0, 0, 0⟩

/-- Helper witness conditions for C7: all fields 1 except aw = 10. -/
noncomputable def vcC7w : ViewingConditions :=
  ⟨1, 10, 1, 1, 1, 1, 1, 1, 1, 1, 1, 1⟩

/-- Helper witness Cam16 value for C7: chroma 0, j = 50. -/
noncomputable def camC7w : Cam16 := ⟨0, 0, 50, 0, 0, 0, 0, 0, 0⟩

/-- C7 counterexample: a Cam16 value with chroma = 0 (the very premise
of the claim) and lightness j = 100 together with viewing conditions
under which `Cam16.viewed` performs a division by zero: its denominator
`400 - abs(rA)` is exactly zero, so the claim that the special case
prevents every division by zero for all such Cam16 values is false as
stated. -/
theorem C7_counterexample :
    camC7.chroma = 0 ∧ 0 ≤ camC7.j ∧ camC7.j ≤ 100 ∧
      ¬ Cam16.viewedDivSafe camC7 vcC7 := by
  refine ⟨rfl, by norm_num [camC7], by norm_num [camC7], ?_⟩
  intro hsafe
  have h400 := hsafe.2.2.2.2.2.1
  apply h400
  obtain ⟨-, -, ha, hb⟩ := viewed_tab_zero camC7 vcC7 (Or.inl rfl)
  have hac : Cam16.viewed_ac camC7 vcC7 = 28060 / 23 := by
    simp only [Cam16.viewed_ac, camC7, vcC7]
    norm_num [Real.one_rpow]
  have hp2 : Cam16.viewed_p2 camC7 vcC7 = 28060 / 23 := by
    simp only [Cam16.viewed_p2]
    rw [hac]
    norm_num [vcC7]
  have hrA : Cam16.viewed_rA camC7 vcC7 = 400 := by
    simp only [Cam16.viewed_rA, ha, hb, hp2]
    norm_num
  rw [hrA]
  norm_num

/-- Witness for C7: the amended theorem applied to concrete well-formed
conditions (aw = 10) and the concrete Cam16 value with chroma 0,
j = 50. -/
theorem C7_witness : Cam16.viewedDivSafe camC7w vcC7w := by
  apply C7_viewed_div_safe vcC7w ?_ camC7w (Or.inl rfl)
    (by norm_num [camC7w]) (by norm_num [camC7w])
  refine ⟨by norm_num [vcC7w], by norm_num [vcC7w], by norm_num [vcC7w],
    by norm_num [vcC7w], by norm_num [vcC7w], by norm_num [vcC7w],
    by norm_num [vcC7w], by norm_num [vcC7w], by norm_num [vcC7w],
    by norm_num [vcC7w], ?_, by norm_num [vcC7w]⟩
  have h : vcC7w.n = 1 := rfl
  rw [h, Real.rpow_one]
  norm_num

end ClaimC7

section ClaimC4

/-- Strict lower bound on a cube root from a cubed rational bound. -/
theorem rpow_third_gt {y q : ℝ} (hq : 0 ≤ q) (h : q ^ (3 : ℕ) < y) :
    q < y ^ ((1 : ℝ) / 3) := by
  have key : (q ^ (3 : ℕ)) ^ ((1 : ℝ) / 3) = q := by
    rw [← Real.rpow_natCast q 3, ← Real.rpow_mul hq]
    rw [show ((3 : ℕ) : ℝ) * (1 / 3) = 1 by norm_num, Real.rpow_one]
  calc q = (q ^ (3 : ℕ)) ^ ((1 : ℝ) / 3) := key.symm
    _ < y ^ ((1 : ℝ) / 3) :=
        Real.rpow_lt_rpow (pow_nonneg hq 3) h (by norm_num)

/-- The Y component computed by the camelCase tree at white is exactly
100 (the middle row of SRGB_TO_XYZ sums to 1). -/
theorem mcup_xyz_white_y : (Mcup.xyzFromArgb 0xFFFFFFFF).2.1 = 100 := by
  simp only [Mcup.xyzFromArgb]
  rw [show Mcup.redFromArgb 0xFFFFFFFF = 255 from by decide,
    show Mcup.greenFromArgb 0xFFFFFFFF = 255 from by decide,
    show Mcup.blueFromArgb 0xFFFFFFFF = 255 from by decide]
  push_cast
  rw [mcup_linearized_eq, mcu_linearized_255]
  simp only [Mcup.matrixMultiply, Mcup.SRGB_TO_XYZ]
  norm_num

/-- The Y component computed by the camelCase tree at black is 0. -/
theorem mcup_xyz_black_y : (Mcup.xyzFromArgb 0xFF000000).2.1 = 0 := by
  simp only [Mcup.xyzFromArgb]
  rw [show Mcup.redFromArgb 0xFF000000 = 0 from by decide,
    show Mcup.greenFromArgb 0xFF000000 = 0 from by decide,
    show Mcup.blueFromArgb 0xFF000000 = 0 from by decide]
  push_cast
  rw [mcup_linearized_eq, mcu_linearized_0]
  simp only [Mcup.matrixMultiply, Mcup.SRGB_TO_XYZ]
  norm_num

/-- The Y component computed by the snake_case tree at white is
119.198446: its row-times-matrix contraction sums the middle COLUMN of
SRGB_TO_XYZ, which does not sum to 1. -/
theorem mcu_xyz_white_y : (Mcu.xyz_from_argb 0xFFFFFFFF).2.1 = 119.198446 := by
  simp only [Mcu.xyz_from_argb]
  rw [show Mcu.red_from_argb 0xFFFFFFFF = 255 from by decide,
    show Mcu.green_from_argb 0xFFFFFFFF = 255 from by decide,
    show Mcu.blue_from_argb 0xFFFFFFFF = 255 from by decide]
  push_cast
  rw [mcu_linearized_255]
  simp only [Mcu.matrix_multiply, Mcu.SRGB_TO_XYZ]
  norm_num

/-- The Y component computed by the snake_case tree at black is 0. -/
theorem mcu_xyz_black_y : (Mcu.xyz_from_argb 0xFF000000).2.1 = 0 := by
  simp only [Mcu.xyz_from_argb]
  rw [show Mcu.red_from_argb 0xFF000000 = 0 from by decide,
    show Mcu.green_from_argb 0xFF000000 = 0 from by decide,
    show Mcu.blue_from_argb 0xFF000000 = 0 from by decide]
  push_cast
  rw [mcu_linearized_0]
  simp only [Mcu.matrix_multiply, Mcu.SRGB_TO_XYZ]
  norm_num

/-- C4 (amended): `argb_from_rgb(255,255,255) = 0xFFFFFFFF` holds in
both variants; `lstarFromArgb(0xFFFFFFFF) = 100` and
`lstarFromArgb(0xFF000000) = 0` hold EXACTLY in the camelCase variant;
in the snake_case variant `lstar_from_argb(0xFF000000) = 0` holds but
the white value is not close to 100 (see the counterexample), because
`xyz_from_argb` applies the transposed matrix. -/
theorem C4_concrete_values :
    Mcu.argb_from_rgb 255 255 255 = 0xFFFFFFFF ∧
    Mcup.argbFromRgb 255 255 255 = 0xFFFFFFFF ∧
    Mcup.lstarFromArgb 0xFFFFFFFF = 100 ∧
    Mcup.lstarFromArgb 0xFF000000 = 0 ∧
    Mcu.lstar_from_argb 0xFF000000 = 0 := by
  refine ⟨by decide, by decide, ?_, ?_, ?_⟩
  · simp only [Mcup.lstarFromArgb]
    rw [mcup_xyz_white_y]
    rw [show (100 : ℝ) / 100 = 1 by norm_num]
    rw [if_neg (by norm_num), Real.one_rpow]
    norm_num
  · simp only [Mcup.lstarFromArgb]
    rw [mcup_xyz_black_y]
    rw [if_pos (by norm_num)]
    norm_num
  · simp only [Mcu.lstar_from_argb]
    rw [mcu_xyz_black_y]
    rw [if_pos (by norm_num)]
    norm_num

/-- C4 counterexample: in the snake_case variant the L* of white is
greater than 105 (in fact ≈ 107.04), not approximately 100. -/
theorem C4_counterexample : Mcu.lstar_from_argb 0xFFFFFFFF > 105 := by
  simp only [Mcu.lstar_from_argb]
  rw [mcu_xyz_white_y]
  rw [if_neg (by norm_num)]
  have h3 : (121 / 116 : ℝ) < ((119.198446 : ℝ) / 100) ^ ((1 : ℝ) / 3) :=
    rpow_third_gt (by norm_num) (by norm_num)
  linarith

end ClaimC4

section ClaimC10

/-- The four unpacked channels of an ARGB integer all lie in 0..255. -/
def channel_in_range (argb : ℤ) : Prop :=
  0 ≤ Mcu.alpha_from_argb argb ∧ Mcu.alpha_from_argb argb ≤ 255 ∧
  0 ≤ Mcu.red_from_argb argb ∧ Mcu.red_from_argb argb ≤ 255 ∧
  0 ≤ Mcu.green_from_argb argb ∧ Mcu.green_from_argb argb ≤ 255 ∧
  0 ≤ Mcu.blue_from_argb argb ∧ Mcu.blue_from_argb argb ≤ 255

/-- Channel extraction always masks to a byte. -/
theorem channel_in_range_all (v : ℤ) : channel_in_range v := by
  unfold channel_in_range Mcu.alpha_from_argb Mcu.red_from_argb
    Mcu.green_from_argb Mcu.blue_from_argb
  have h : ∀ w : ℤ, 0 ≤ w % 256 ∧ w % 256 ≤ 255 := fun w =>
    ⟨Int.emod_nonneg w (by norm_num), by
      have := Int.emod_lt_of_pos w (show (0 : ℤ) < 256 by norm_num)
      omega⟩
  exact ⟨(h _).1, (h _).2, (h _).1, (h _).2, (h _).1, (h _).2, (h _).1, (h _).2⟩

/-- Rounding then clamping keeps `delinearized` inside 0..255. -/
theorem delinearized_range (x : ℝ) :
    0 ≤ Mcu.delinearized x ∧ Mcu.delinearized x ≤ 255 := by
  unfold Mcu.delinearized
  exact clamp_int_mem 0 255 _ (by norm_num)

/-- C10: for every real input (including values below 0 and above 100)
`delinearized` rounds then clamps into 0..255, and the ARGB colors
produced by `argb_from_xyz`, `argb_From_lstar` and `argd_from_lab` never
carry an out-of-range channel. -/
theorem C10_channels_in_range :
    (∀ x : ℝ, 0 ≤ Mcu.delinearized x ∧ Mcu.delinearized x ≤ 255) ∧
    (∀ x y z : ℝ, channel_in_range (Mcu.argb_from_xyz x y z)) ∧
    (∀ l : ℝ, channel_in_range (Mcu.argb_From_lstar l)) ∧
    (∀ l a b : ℝ, channel_in_range (Mcu.argd_from_lab l a b)) :=
  ⟨delinearized_range, fun _ _ _ => channel_in_range_all _,
    fun _ => channel_in_range_all _, fun _ _ _ => channel_in_range_all _⟩

end ClaimC10

section PackLemmas

/-- Closed arithmetic form of the ARGB packing. -/
theorem argb_from_rgb_eval (r g b : ℤ) :
    Mcu.argb_from_rgb r g b =
      255 * 2 ^ 24 + r % 256 * 2 ^ 16 + g % 256 * 2 ^ 8 + b % 256 := by
  unfold Mcu.argb_from_rgb Mcu.rshift
  rw [if_pos (by omega :
    (0 : ℤ) ≤ 255 * 2 ^ 24 + r % 256 * 2 ^ 16 + g % 256 * 2 ^ 8 + b % 256)]
  rw [pow_zero, Int.fdiv_one]

/-- Unpacking the packed channels returns them unchanged when they lie
in 0..255. -/
theorem argb_from_rgb_channels (r g b : ℤ) (hr0 : 0 ≤ r) (hr1 : r ≤ 255)
    (hg0 : 0 ≤ g) (hg1 : g ≤ 255) (hb0 : 0 ≤ b) (hb1 : b ≤ 255) :
    Mcu.red_from_argb (Mcu.argb_from_rgb r g b) = r ∧
    Mcu.green_from_argb (Mcu.argb_from_rgb r g b) = g ∧
    Mcu.blue_from_argb (Mcu.argb_from_rgb r g b) = b := by
  rw [argb_from_rgb_eval]
  unfold Mcu.red_from_argb Mcu.green_from_argb Mcu.blue_from_argb
  rw [Int.fdiv_eq_ediv _ (by norm_num), Int.fdiv_eq_ediv _ (by norm_num)]
  refine ⟨by omega, by omega, by omega⟩

/-- The camelCase packing is the same function as the snake_case one. -/
theorem mcup_argbFromRgb_eq : Mcup.argbFromRgb = Mcu.argb_from_rgb := rfl

/-- The camelCase red extraction is the same function. -/
theorem mcup_redFromArgb_eq : Mcup.redFromArgb = Mcu.red_from_argb := rfl

/-- The camelCase green extraction is the same function. -/
theorem mcup_greenFromArgb_eq : Mcup.greenFromArgb = Mcu.green_from_argb := rfl

/-- The camelCase blue extraction is the same function. -/
theorem mcup_blueFromArgb_eq : Mcup.blueFromArgb = Mcu.blue_from_argb := rfl

end PackLemmas

section RpowBridges

/-- Raising an rpow with exponent 12/5 to the fifth power gives the
twelfth power. -/
theorem rpow_tf_pow_five {x : ℝ} (hx : 0 ≤ x) :
    (x ^ (2.4 : ℝ)) ^ (5 : ℕ) = x ^ (12 : ℕ) := by
  rw [← Real.rpow_natCast (x ^ (2.4 : ℝ)) 5, ← Real.rpow_mul hx]
  rw [show (2.4 : ℝ) * ((5 : ℕ) : ℝ) = ((12 : ℕ) : ℝ) by norm_num]
  exact Real.rpow_natCast x 12

/-- Raising an rpow with exponent 7/5 to the fifth power gives the
seventh power. -/
theorem rpow_sf_pow_five {x : ℝ} (hx : 0 ≤ x) :
    (x ^ (1.4 : ℝ)) ^ (5 : ℕ) = x ^ (7 : ℕ) := by
  rw [← Real.rpow_natCast (x ^ (1.4 : ℝ)) 5, ← Real.rpow_mul hx]
  rw [show (1.4 : ℝ) * ((5 : ℕ) : ℝ) = ((7 : ℕ) : ℝ) by norm_num]
  exact Real.rpow_natCast x 7

/-- Rational lower bound for an exponent-2.4 power via integer powers. -/
theorem lt_rpow_tf {x q : ℝ} (hx : 0 ≤ x) (_hq : 0 ≤ q)
    (h : q ^ (5 : ℕ) < x ^ (12 : ℕ)) : q < x ^ (2.4 : ℝ) := by
  by_contra hcon
  push_neg at hcon
  have := pow_le_pow_left₀ (Real.rpow_nonneg hx _) hcon 5
  rw [rpow_tf_pow_five hx] at this
  linarith

/-- Rational lower bound for an exponent-1.4 power via integer powers. -/
theorem le_rpow_sf {x q : ℝ} (hx : 0 ≤ x) (_hq : 0 ≤ q)
    (h : q ^ (5 : ℕ) ≤ x ^ (7 : ℕ)) : q ≤ x ^ (1.4 : ℝ) := by
  by_contra hcon
  push_neg at hcon
  have := pow_le_pow_left₀ (Real.rpow_nonneg hx _) (le_of_lt hcon) 5
  rw [rpow_sf_pow_five hx] at this
  have h5 : x ^ (7 : ℕ) < q ^ (5 : ℕ) := by
    rcases lt_or_eq_of_le this with hlt | heq
    · exact hlt
    · exfalso
      have hql : x ^ (1.4 : ℝ) < q := hcon
      have : (x ^ (1.4 : ℝ)) ^ (5:ℕ) < q ^ (5:ℕ) :=
        pow_lt_pow_left₀ hql (Real.rpow_nonneg hx _) (by norm_num)
      rw [rpow_sf_pow_five hx] at this
      linarith
  linarith

/-- Composing the 2.4 power with the 1/2.4 power is the identity. -/
theorem rpow_tf_inv {u : ℝ} (hu : 0 ≤ u) :
    (u ^ (2.4 : ℝ)) ^ ((1 : ℝ) / 2.4) = u := by
  rw [← Real.rpow_mul hu, show (2.4 : ℝ) * (1 / 2.4) = 1 by norm_num,
    Real.rpow_one]

/-- Strict monotone transfer through the 1/2.4 power, upper form. -/
theorem rpow_ft_lt {w u : ℝ} (hw : 0 ≤ w) (hu : 0 ≤ u)
    (h : w < u ^ (2.4 : ℝ)) : w ^ ((1 : ℝ) / 2.4) < u := by
  have := Real.rpow_lt_rpow hw h (by norm_num : (0 : ℝ) < 1 / 2.4)
  rwa [rpow_tf_inv hu] at this

/-- Strict monotone transfer through the 1/2.4 power, lower form. -/
theorem lt_rpow_ft {w u : ℝ} (hu : 0 ≤ u)
    (h : u ^ (2.4 : ℝ) < w) : u < w ^ ((1 : ℝ) / 2.4) := by
  have := Real.rpow_lt_rpow (Real.rpow_nonneg hu _) h (by norm_num : (0 : ℝ) < 1 / 2.4)
  rwa [rpow_tf_inv hu] at this

/-- Bernoulli-style gap bound: for 0 < b ≤ a the 2.4-power grows at
least at rate 2.4 times the 1.4-power of the left endpoint. -/
theorem rpow_gap {a b : ℝ} (hb : 0 < b) (hab : b ≤ a) :
    2.4 * ((a - b) * b ^ (1.4 : ℝ)) ≤ a ^ (2.4 : ℝ) - b ^ (2.4 : ℝ) := by
  have ha : 0 ≤ a := le_trans (le_of_lt hb) hab
  have hs : (0 : ℝ) ≤ a / b - 1 := by
    rw [le_sub_iff_add_le, zero_add, le_div_iff₀ hb, one_mul]
    exact hab
  have hbern := one_add_mul_self_le_rpow_one_add
    (by linarith : (-1 : ℝ) ≤ a / b - 1) (by norm_num : (1 : ℝ) ≤ 2.4)
  rw [show (1 : ℝ) + (a / b - 1) = a / b by ring] at hbern
  rw [Real.div_rpow ha (le_of_lt hb)] at hbern
  have hb24 : (0 : ℝ) < b ^ (2.4 : ℝ) := Real.rpow_pos_of_pos hb _
  have hmul := mul_le_mul_of_nonneg_right hbern (le_of_lt hb24)
  rw [div_mul_cancel₀ _ (ne_of_gt hb24)] at hmul
  have hkey : (a / b - 1) * b ^ (2.4 : ℝ) = (a - b) * b ^ (1.4 : ℝ) := by
    have h14 : b ^ (2.4 : ℝ) = b ^ (1.4 : ℝ) * b := by
      rw [show (2.4 : ℝ) = 1.4 + 1 by norm_num, Real.rpow_add hb, Real.rpow_one]
    rw [h14]
    field_simp
    ring
  have hexp : (1 + 2.4 * (a / b - 1)) * b ^ (2.4 : ℝ) =
      b ^ (2.4 : ℝ) + 2.4 * ((a - b) * b ^ (1.4 : ℝ)) := by
    rw [← hkey]
    ring
  rw [hexp] at hmul
  linarith

end RpowBridges

section LinearizedLemmas

/-- On channels 0..10 `linearized` takes the linear branch. -/
theorem linearized_linear {c : ℤ} (h10 : c ≤ 10) :
    Mcu.linearized (c : ℝ) = (c : ℝ) / 255 / 12.92 * 100 := by
  have hcr : (c : ℝ) ≤ 10 := by exact_mod_cast h10
  simp only [Mcu.linearized]
  rw [if_pos (by rw [div_le_iff₀ (by norm_num : (0:ℝ) < 255)]; linarith)]

/-- On channels 11..255 `linearized` takes the power branch. -/
theorem linearized_pow {c : ℤ} (h11 : 11 ≤ c) :
    Mcu.linearized (c : ℝ) =
      (((c : ℝ) / 255 + 0.055) / 1.055) ^ (2.4 : ℝ) * 100 := by
  have hcr : (11 : ℝ) ≤ (c : ℝ) := by exact_mod_cast h11
  simp only [Mcu.linearized]
  rw [if_neg (by rw [not_le, lt_div_iff₀ (by norm_num : (0:ℝ) < 255)]; linarith)]

/-- The linearized channel value lies on the 0..100 scale. -/
theorem linearized_mem {c : ℤ} (h0 : 0 ≤ c) (h1 : c ≤ 255) :
    0 ≤ Mcu.linearized (c : ℝ) ∧ Mcu.linearized (c : ℝ) ≤ 100 := by
  have hc0 : (0 : ℝ) ≤ (c : ℝ) := by exact_mod_cast h0
  have hc1 : (c : ℝ) ≤ 255 := by exact_mod_cast h1
  simp only [Mcu.linearized]
  split_ifs with h
  · have e : (c : ℝ) / 255 / 12.92 * 100 = (c : ℝ) / 255 * (100 / 12.92) := by
      ring
    rw [e]
    constructor
    · positivity
    · nlinarith [h, div_nonneg hc0 (by norm_num : (0:ℝ) ≤ 255)]
  · have hu0 : (0 : ℝ) ≤ ((c : ℝ) / 255 + 0.055) / 1.055 := by positivity
    have hu1 : ((c : ℝ) / 255 + 0.055) / 1.055 ≤ 1 := by
      rw [div_le_one (by norm_num : (0:ℝ) < 1.055)]
      have : (c : ℝ) / 255 ≤ 1 := by
        rw [div_le_one (by norm_num : (0:ℝ) < 255)]
        linarith
      linarith
    constructor
    · have := Real.rpow_nonneg hu0 (2.4 : ℝ)
      linarith
    · have := Real.rpow_le_one hu0 hu1 (by norm_num : (0:ℝ) ≤ (2.4:ℝ))
      linarith

/-- Central perturbation lemma: `delinearized` recovers the original
channel from its linearized value even after a perturbation of at most
10⁻⁹ on the 0..100 scale (the matrix-product round trip below perturbs
by less than 10⁻¹³). -/
theorem delin_linearized_perturb (c : ℤ) (h0 : 0 ≤ c) (h1 : c ≤ 255)
    (δ : ℝ) (hδ : |δ| ≤ 1 / 1000000000) :
    Mcu.delinearized (Mcu.linearized (c : ℝ) + δ) = c := by
  obtain ⟨hδ1, hδ2⟩ := abs_le.1 hδ
  by_cases hc : c ≤ 10
  · -- linear branch on both sides
    have hcr0 : (0 : ℝ) ≤ (c : ℝ) := by exact_mod_cast h0
    have hcr : (c : ℝ) ≤ 10 := by exact_mod_cast hc
    have elin : (c : ℝ) / 255 / 12.92 * 100 = (c : ℝ) * (100 / (255 * 12.92)) := by
      ring
    rw [linearized_linear hc, elin]
    simp only [Mcu.delinearized]
    rw [if_pos (by
      rw [div_le_iff₀ (by norm_num : (0:ℝ) < 100)]
      nlinarith)]
    have heq : ((c : ℝ) * (100 / (255 * 12.92)) + δ) / 100 * 12.92 * 255 =
        (c : ℝ) + 32.946 * δ := by ring
    rw [heq]
    have hpy : pyRound ((c : ℝ) + 32.946 * δ) = c :=
      pyRound_eq_of_mem (by nlinarith) (by nlinarith)
    rw [hpy]
    exact clamp_int_of_mem h0 h1
  · -- power branch on both sides
    have h11 : (11 : ℤ) ≤ c := by omega
    have hcr : (11 : ℝ) ≤ (c : ℝ) := by exact_mod_cast h11
    have hcr1 : (c : ℝ) ≤ 255 := by exact_mod_cast h1
    rw [linearized_pow h11]
    simp only [Mcu.delinearized]
    set u : ℝ := ((c : ℝ) / 255 + 0.055) / 1.055 with hu
    have hu0 : (0 : ℝ) < u := by
      rw [hu]
      positivity
    have hu1le : ((11 : ℝ) / 255 + 0.055) / 1.055 ≤ u := by
      rw [hu]
      gcongr ?x / _
      have : (11 : ℝ) / 255 ≤ (c : ℝ) / 255 := by gcongr ?y / _
      linarith
    have hu10 : (0 : ℝ) ≤ ((11 : ℝ) / 255 + 0.055) / 1.055 := by norm_num
    -- rational lower bound on u ^ 2.4
    have hutf : (0.0031408 : ℝ) < u ^ (2.4 : ℝ) := by
      apply lt_rpow_tf (le_of_lt hu0) (by norm_num)
      calc (0.0031408 : ℝ) ^ (5 : ℕ)
          < (((11 : ℝ) / 255 + 0.055) / 1.055) ^ (12 : ℕ) := by norm_num
        _ ≤ u ^ (12 : ℕ) := pow_le_pow_left₀ hu10 hu1le 12
    -- rational lower bound on u ^ 1.4
    have husf : (0.0359 : ℝ) ≤ u ^ (1.4 : ℝ) := by
      apply le_rpow_sf (le_of_lt hu0) (by norm_num)
      calc (0.0359 : ℝ) ^ (5 : ℕ)
          ≤ (((11 : ℝ) / 255 + 0.055) / 1.055) ^ (7 : ℕ) := by norm_num
        _ ≤ u ^ (7 : ℕ) := pow_le_pow_left₀ hu10 hu1le 7
    -- the delinearize input stays in the power branch
    rw [if_neg (by
      rw [not_le, lt_div_iff₀ (by norm_num : (0:ℝ) < 100)]
      nlinarith)]
    -- upper endpoint
    have huplus0 : (0 : ℝ) ≤ (((c : ℝ) + 1 / 2) / 255 + 0.055) / 1.055 := by
      positivity
    have huup : u ≤ (((c : ℝ) + 1 / 2) / 255 + 0.055) / 1.055 := by
      rw [hu]
      gcongr ?x / _
      have : (c : ℝ) / 255 ≤ ((c : ℝ) + 1 / 2) / 255 := by gcongr ?y / _; linarith
      linarith
    have hgapup := rpow_gap hu0 huup
    have hlenup : (((c : ℝ) + 1 / 2) / 255 + 0.055) / 1.055 - u = 20 / 10761 := by
      rw [hu]
      ring
    rw [hlenup] at hgapup
    have hwUP : (u ^ (2.4 : ℝ) * 100 + δ) / 100 <
        ((((c : ℝ) + 1 / 2) / 255 + 0.055) / 1.055) ^ (2.4 : ℝ) := by
      have hw_eq : (u ^ (2.4 : ℝ) * 100 + δ) / 100 = u ^ (2.4 : ℝ) + δ / 100 := by
        ring
      rw [hw_eq]
      nlinarith [hgapup, husf, hδ2]
    -- lower endpoint
    have hum0 : (0 : ℝ) < (((c : ℝ) - 1 / 2) / 255 + 0.055) / 1.055 := by
      apply div_pos _ (by norm_num)
      have : (0 : ℝ) ≤ ((c : ℝ) - 1 / 2) / 255 := by
        apply div_nonneg _ (by norm_num)
        linarith
      linarith
    have humle : (((c : ℝ) - 1 / 2) / 255 + 0.055) / 1.055 ≤ u := by
      rw [hu]
      gcongr ?x / _
      have : ((c : ℝ) - 1 / 2) / 255 ≤ (c : ℝ) / 255 := by gcongr ?y / _; linarith
      linarith
    have hum1le : ((10.5 : ℝ) / 255 + 0.055) / 1.055 ≤
        (((c : ℝ) - 1 / 2) / 255 + 0.055) / 1.055 := by
      gcongr ?x / _
      have : (10.5 : ℝ) / 255 ≤ ((c : ℝ) - 1 / 2) / 255 := by
        gcongr ?y / _
        linarith
      linarith
    have humsf : (0.0349 : ℝ) ≤
        ((((c : ℝ) - 1 / 2) / 255 + 0.055) / 1.055) ^ (1.4 : ℝ) := by
      apply le_rpow_sf (le_of_lt hum0) (by norm_num)
      calc (0.0349 : ℝ) ^ (5 : ℕ)
          ≤ (((10.5 : ℝ) / 255 + 0.055) / 1.055) ^ (7 : ℕ) := by norm_num
        _ ≤ ((((c : ℝ) - 1 / 2) / 255 + 0.055) / 1.055) ^ (7 : ℕ) :=
            pow_le_pow_left₀ (by norm_num) hum1le 7
    have hgapdn := rpow_gap hum0 humle
    have hlendn : u - (((c : ℝ) - 1 / 2) / 255 + 0.055) / 1.055 = 20 / 10761 := by
      rw [hu]
      ring
    rw [hlendn] at hgapdn
    have hwDN : ((((c : ℝ) - 1 / 2) / 255 + 0.055) / 1.055) ^ (2.4 : ℝ) <
        (u ^ (2.4 : ℝ) * 100 + δ) / 100 := by
      have hw_eq : (u ^ (2.4 : ℝ) * 100 + δ) / 100 = u ^ (2.4 : ℝ) + δ / 100 := by
        ring
      rw [hw_eq]
      nlinarith [hgapdn, humsf, hδ1]
    -- combine through the 1/2.4 power
    have hw0 : (0 : ℝ) ≤ (u ^ (2.4 : ℝ) * 100 + δ) / 100 := by
      have := Real.rpow_nonneg (le_of_lt hum0) (2.4 : ℝ)
      linarith [hwDN]
    have hlt1 := rpow_ft_lt hw0 huplus0 hwUP
    have hlt2 := lt_rpow_ft (le_of_lt hum0) hwDN
    have hupval : 1.055 * ((((c : ℝ) + 1 / 2) / 255 + 0.055) / 1.055) - 0.055 =
        ((c : ℝ) + 1 / 2) / 255 := by ring
    have hdnval : 1.055 * ((((c : ℝ) - 1 / 2) / 255 + 0.055) / 1.055) - 0.055 =
        ((c : ℝ) - 1 / 2) / 255 := by ring
    have hub : (1.055 * ((u ^ (2.4:ℝ) * 100 + δ) / 100) ^ ((1:ℝ) / 2.4) - 0.055) *
        255 < (c : ℝ) + 1 / 2 := by
      have hmul : 1.055 * ((u ^ (2.4:ℝ) * 100 + δ) / 100) ^ ((1:ℝ) / 2.4) <
          1.055 * ((((c : ℝ) + 1 / 2) / 255 + 0.055) / 1.055) := by
        nlinarith [hlt1]
      nlinarith [hmul, hupval]
    have hlb : (c : ℝ) - 1 / 2 < (1.055 *
        ((u ^ (2.4:ℝ) * 100 + δ) / 100) ^ ((1:ℝ) / 2.4) - 0.055) * 255 := by
      have hmul : 1.055 * ((((c : ℝ) - 1 / 2) / 255 + 0.055) / 1.055) <
          1.055 * ((u ^ (2.4:ℝ) * 100 + δ) / 100) ^ ((1:ℝ) / 2.4) := by
        nlinarith [hlt2]
      nlinarith [hmul, hdnval]
    have hpy : pyRound ((1.055 * ((u ^ (2.4:ℝ) * 100 + δ) / 100) ^ ((1:ℝ) / 2.4) -
        0.055) * 255) = c := pyRound_eq_of_mem hlb hub
    rw [hpy]
    exact clamp_int_of_mem h0 h1

end LinearizedLemmas

section ClaimC1

/-- A real within 10⁻⁹ of a linearized channel delinearizes back to the
channel. -/
theorem delin_close (cc : ℤ) (hc0 : 0 ≤ cc) (hc1 : cc ≤ 255) (E : ℝ)
    (hE : |E - Mcu.linearized (cc : ℝ)| ≤ 1 / 1000000000) :
    Mcu.delinearized E = cc := by
  have h := delin_linearized_perturb cc hc0 hc1 (E - Mcu.linearized (cc : ℝ)) hE
  rwa [show Mcu.linearized (cc : ℝ) + (E - Mcu.linearized (cc : ℝ)) = E by ring]
    at h

/-- C1 (amended): in the camelCase tree the ARGB → XYZ → ARGB round trip
is the identity on every valid ARGB color (integer channel equality);
the snake_case tree violates it (see the counterexample) because its
`xyz_from_argb` contracts with the transposed matrix. -/
theorem C1_roundtrip_camel (r g b : ℤ) (hr0 : 0 ≤ r) (hr1 : r ≤ 255)
    (hg0 : 0 ≤ g) (hg1 : g ≤ 255) (hb0 : 0 ≤ b) (hb1 : b ≤ 255) :
    Mcup.argbFromXyz (Mcup.xyzFromArgb (Mcup.argbFromRgb r g b)).1
      (Mcup.xyzFromArgb (Mcup.argbFromRgb r g b)).2.1
      (Mcup.xyzFromArgb (Mcup.argbFromRgb r g b)).2.2 =
      Mcup.argbFromRgb r g b := by
  obtain ⟨hre, hge, hbe⟩ :=
    argb_from_rgb_channels r g b hr0 hr1 hg0 hg1 hb0 hb1
  have hre' : Mcup.redFromArgb (Mcup.argbFromRgb r g b) = r := hre
  have hge' : Mcup.greenFromArgb (Mcup.argbFromRgb r g b) = g := hge
  have hbe' : Mcup.blueFromArgb (Mcup.argbFromRgb r g b) = b := hbe
  obtain ⟨hlr0, hlr1⟩ := linearized_mem hr0 hr1
  obtain ⟨hlg0, hlg1⟩ := linearized_mem hg0 hg1
  obtain ⟨hlb0, hlb1⟩ := linearized_mem hb0 hb1
  simp only [Mcup.xyzFromArgb, hre', hge', hbe', mcup_linearized_eq]
  simp only [Mcup.matrixMultiply, Mcup.SRGB_TO_XYZ]
  simp only [Mcup.argbFromXyz, Mcup.XYZ_TO_SRGB, mcup_delinearized_eq]
  congr 1
  · exact delin_close r hr0 hr1 _ (by
      rw [abs_le]
      constructor <;> nlinarith [hlr0, hlr1, hlg0, hlg1, hlb0, hlb1])
  · exact delin_close g hg0 hg1 _ (by
      rw [abs_le]
      constructor <;> nlinarith [hlr0, hlr1, hlg0, hlg1, hlb0, hlb1])
  · exact delin_close b hb0 hb1 _ (by
      rw [abs_le]
      constructor <;> nlinarith [hlr0, hlr1, hlg0, hlg1, hlb0, hlb1])

end ClaimC1

/-- Witness for C1: the amended round trip applied at the pure-red valid
color (255, 0, 0). -/
theorem C1_witness :
    Mcup.argbFromXyz (Mcup.xyzFromArgb (Mcup.argbFromRgb 255 0 0)).1
      (Mcup.xyzFromArgb (Mcup.argbFromRgb 255 0 0)).2.1
      (Mcup.xyzFromArgb (Mcup.argbFromRgb 255 0 0)).2.2 =
      Mcup.argbFromRgb 255 0 0 :=
  C1_roundtrip_camel 255 0 0 (by decide) (by decide) (by decide) (by decide)
    (by decide) (by decide)

/-- The X component computed by the snake_case tree at white. -/
theorem mcu_xyz_white_x : (Mcu.xyz_from_argb 0xFFFFFFFF).1 = 64.426036 := by
  simp only [Mcu.xyz_from_argb]
  rw [show Mcu.red_from_argb 0xFFFFFFFF = 255 from by decide,
    show Mcu.green_from_argb 0xFFFFFFFF = 255 from by decide,
    show Mcu.blue_from_argb 0xFFFFFFFF = 255 from by decide]
  push_cast
  rw [mcu_linearized_255]
  simp only [Mcu.matrix_multiply, Mcu.SRGB_TO_XYZ]
  norm_num

/-- The Z component computed by the snake_case tree at white. -/
theorem mcu_xyz_white_z : (Mcu.xyz_from_argb 0xFFFFFFFF).2.2 = 120.30552 := by
  simp only [Mcu.xyz_from_argb]
  rw [show Mcu.red_from_argb 0xFFFFFFFF = 255 from by decide,
    show Mcu.green_from_argb 0xFFFFFFFF = 255 from by decide,
    show Mcu.blue_from_argb 0xFFFFFFFF = 255 from by decide]
  push_cast
  rw [mcu_linearized_255]
  simp only [Mcu.matrix_multiply, Mcu.SRGB_TO_XYZ]
  norm_num

/-- C1 counterexample: in the snake_case tree the round trip is NOT the
identity at the valid color 0xFFFFFFFF (white): the transposed matrix
contraction yields XYZ = (64.426036, 119.198446, 120.30552), whose red
linear component under XYZ_TO_SRGB is negative, so the red channel of
the result is 0, not 255. -/
theorem C1_counterexample :
    Mcu.argb_from_xyz (Mcu.xyz_from_argb 0xFFFFFFFF).1
      (Mcu.xyz_from_argb 0xFFFFFFFF).2.1
      (Mcu.xyz_from_argb 0xFFFFFFFF).2.2 ≠ 0xFFFFFFFF := by
  rw [mcu_xyz_white_x, mcu_xyz_white_y, mcu_xyz_white_z]
  simp only [Mcu.argb_from_xyz, Mcu.XYZ_TO_SRGB]
  have hr0 : Mcu.delinearized (3.2413774792388685 * 64.426036 +
      -1.5376652402851851 * 119.198446 + -0.49885366846268053 * 120.30552) = 0 := by
    simp only [Mcu.delinearized]
    rw [if_pos (by norm_num)]
    have hbase : (3.2413774792388685 * 64.426036 +
        -1.5376652402851851 * 119.198446 +
        -0.49885366846268053 * 120.30552 : ℝ) ≤ -34 := by
      norm_num
    have hneg : ((3.2413774792388685 * 64.426036 +
        -1.5376652402851851 * 119.198446 +
        -0.49885366846268053 * 120.30552) / 100 * 12.92 * 255 : ℝ) ≤ -1 := by
      nlinarith [hbase]
    have hpy := pyRound_neg hneg
    unfold Mcu.clamp_int
    rw [if_pos hpy]
  rw [hr0]
  intro h
  rw [argb_from_rgb_eval] at h
  omega
